import Mathlib

/-!
# Verification of the event-storming spatial board engine

A shallow embedding, in Lean 4, of the spatial board engine of the
event-storming tool: card geometry (`eventCardLayout`), the board service
(`EventStormingBoard`), its value objects (`Position`, `EventId`, `EventName`,
`EventType`), the aggregate entity, the connection router
(`buildCardConnectionRoute`) and the JSON serializer.

JavaScript `number`s are embedded as exact fractions (`Q` below): every
constant appearing in the engine (0.52, 1.25, 24 * 0.2, midpoints, means) is a
small decimal fraction, and every comparison or rounding the engine performs
on the concrete inputs used in the theorems below is exact in binary floating
point as well, so the fraction semantics and the float semantics agree there.
`Math.sqrt(d) <= r` is embedded as `d <= r * r` (equivalent for `0 <= r`).
`new Date()` timestamps and generated UUIDs are external inputs to the
program; they are passed explicitly (`now : Nat`, `gen : Nat -> String`).
Thrown `DomainError`s are embedded as the pair of the state at the throw
point and `some message`, so "the board is left unchanged" is a provable
statement rather than an artifact of the embedding.
-/

namespace ES

/-- Exact fraction embedding of a JavaScript `number`.  All values built by
the engine keep `den` positive, under which `Q.le`, `Q.lt`, `Q.valEq`,
`Q.floor` and `Q.ceil` compute the exact rational order, equality, floor and
ceiling. -/
structure Q where
  num : ℤ
  den : ℤ
deriving DecidableEq, Repr

/-- The number `n`. -/
def Q.ofInt (n : ℤ) : Q := ⟨n, 1⟩

/-- Addition of fractions (cross multiplication, no normalization). -/
def Q.add (a b : Q) : Q := ⟨a.num * b.den + b.num * a.den, a.den * b.den⟩

/-- Subtraction of fractions. -/
def Q.sub (a b : Q) : Q := ⟨a.num * b.den - b.num * a.den, a.den * b.den⟩

/-- Multiplication of fractions. -/
def Q.mul (a b : Q) : Q := ⟨a.num * b.num, a.den * b.den⟩

/-- Negation. -/
def Q.neg (a : Q) : Q := ⟨-a.num, a.den⟩

/-- Division, keeping the denominator positive when the divisor is nonzero. -/
def Q.div (a b : Q) : Q :=
  if b.num < 0 then ⟨-(a.num * b.den), a.den * -b.num⟩ else ⟨a.num * b.den, a.den * b.num⟩

/-- `a <= b` on numbers. -/
def Q.le (a b : Q) : Bool := a.num * b.den ≤ b.num * a.den

/-- `a < b` on numbers. -/
def Q.lt (a b : Q) : Bool := a.num * b.den < b.num * a.den

/-- `a === b` on numbers (value equality of the represented fractions). -/
def Q.valEq (a b : Q) : Bool := a.num * b.den == b.num * a.den

/-- `Math.floor`. -/
def Q.floor (a : Q) : ℤ := Int.fdiv a.num a.den

/-- `Math.ceil`. -/
def Q.ceil (a : Q) : ℤ := -Int.fdiv (-a.num) a.den

/-- `Math.round` (half-up, i.e. `floor(x + 1/2)`, matching JavaScript). -/
def Q.round (a : Q) : ℤ := Q.floor (Q.add a ⟨1, 2⟩)

/-- `Math.abs`. -/
def Q.abs (a : Q) : Q := ⟨|a.num|, a.den⟩

/-- `Math.min` of two numbers. -/
def Q.min (a b : Q) : Q := if Q.lt b a then b else a

/-- `Math.max` of two numbers. -/
def Q.max (a b : Q) : Q := if Q.lt a b then b else a

instance : Add Q := ⟨Q.add⟩
instance : Sub Q := ⟨Q.sub⟩
instance : Mul Q := ⟨Q.mul⟩
instance : Neg Q := ⟨Q.neg⟩
instance : Div Q := ⟨Q.div⟩
instance : OfNat Q n := ⟨Q.ofInt n⟩

/-! ## Geometry: `shared/utils/eventCardLayout.ts` -/

/-- `EVENT_CARD_LAYOUT.MIN_WIDTH`. -/
def layoutMinWidth : ℤ := 120

/-- `EVENT_CARD_LAYOUT.MAX_WIDTH`. -/
def layoutMaxWidth : ℤ := 320

/-- `EVENT_CARD_LAYOUT.MIN_HEIGHT`. -/
def layoutMinHeight : ℤ := 80

/-- `EVENT_CARD_LAYOUT.PADDING`. -/
def layoutPadding : ℤ := 10

/-- `EVENT_CARD_LAYOUT.FONT_SIZE`. -/
def layoutFontSize : ℤ := 14

/-- `EVENT_CARD_LAYOUT.LINE_HEIGHT` (1.25). -/
def layoutLineHeight : Q := ⟨125, 100⟩

/-- `isWideChar`: matches `/[^\u0000-ÿ]/`, i.e. the code point exceeds
`0xff`.  (JavaScript `for..of` iterates code points, as `String.data` does.) -/
def isWideChar (c : Char) : Bool := 0xff < c.toNat

/-- `getTextUnits`: double-width for wide characters, at least 1. -/
def getTextUnits (text : List Char) : ℤ :=
  Max.max 1 (text.foldl (fun u c => u + if isWideChar c then 2 else 1) 0)

/-- `text.split('\n')` on the character list: the (always nonempty) list of
newline-separated segments, `[""]` for the empty string. -/
def splitLines : List Char → List (List Char)
  | [] => [[]]
  | c :: rest =>
    match splitLines rest with
    | [] => [[]]
    | line :: lines => if c = '\n' then [] :: line :: lines else (c :: line) :: lines

/-- The derived card size. -/
structure Dim where
  width : ℤ
  height : ℤ
deriving DecidableEq, Repr

/-- `getEventCardDimensions`: the card-size estimation from the name text
(`FONT_SIZE * 0.52` pixels per unit, width clamped into
`[MIN_WIDTH, MAX_WIDTH]`, lines reflowed at `unitsPerLine`, height at least
`MIN_HEIGHT`). -/
def getEventCardDimensions (text : String) : Dim :=
  let pxPerUnit : Q := Q.mul (Q.ofInt layoutFontSize) ⟨52, 100⟩
  let minInnerWidth : ℤ := layoutMinWidth - layoutPadding * 2
  let maxInnerWidth : ℤ := layoutMaxWidth - layoutPadding * 2
  let lines := splitLines text.data
  let widestLineUnits : ℤ := (lines.map getTextUnits).foldl Max.max 1
  let estimatedInnerWidth : Q := Q.mul (Q.ofInt widestLineUnits) pxPerUnit
  let innerWidth : Q := Q.min (Q.ofInt maxInnerWidth) (Q.max (Q.ofInt minInnerWidth) estimatedInnerWidth)
  let unitsPerLine : ℤ := Max.max 1 (Q.floor (Q.div innerWidth pxPerUnit))
  let lineCount : ℤ := Max.max 1 (lines.foldl
    (fun count line => count + Max.max 1 (Q.ceil (Q.div (Q.ofInt (getTextUnits line)) (Q.ofInt unitsPerLine)))) 0)
  let contentHeight : ℤ := Q.ceil (Q.mul (Q.mul (Q.ofInt lineCount) (Q.ofInt layoutFontSize)) layoutLineHeight)
  { width := Q.ceil (Q.add innerWidth (Q.ofInt (layoutPadding * 2)))
    height := Max.max layoutMinHeight (contentHeight + layoutPadding * 2) }

/-! ## Value objects -/

/-- `Position` (a validated instance carries nonnegative coordinates; the
constructor check is `positionCtorOk`). -/
structure Pos where
  x : Q
  y : Q
deriving DecidableEq, Repr

/-- The `Position` constructor guard: `x < 0 || y < 0` throws
`'Position cannot be negative'`. -/
def positionCtorOk (p : Pos) : Bool := !(Q.lt p.x (Q.ofInt 0)) && !(Q.lt p.y (Q.ofInt 0))

/-- `BOARD_MAX_WIDTH` / `BOARD_MAX_HEIGHT`. -/
def boardMax : ℤ := 10000

/-- `Position.isWithinBounds`: `x <= 10000 && y <= 10000`. -/
def Pos.isWithinBounds (p : Pos) : Bool :=
  Q.le p.x (Q.ofInt boardMax) && Q.le p.y (Q.ofInt boardMax)

/-- Squared-distance comparison `position.distanceTo(other) <= d`, embedded
sqrt-free: `dx*dx + dy*dy <= d*d` (equivalent for `0 <= d`; the engine only
compares distances against the nonnegative constants 500 and 300). -/
def Pos.distLe (p other : Pos) (d : Q) : Bool :=
  let dx := Q.sub p.x other.x
  let dy := Q.sub p.y other.y
  Q.le (Q.add (Q.mul dx dx) (Q.mul dy dy)) (Q.mul d d)

/-- `Position.equals`: both coordinates equal. -/
def Pos.posEq (p other : Pos) : Bool := Q.valEq p.x other.x && Q.valEq p.y other.y

/-- `EventType`: the closed set of card types. -/
inductive EventType where
  | domainEvent
  | command
  | policy
  | externalSystem
  | aggregateMarker
  | readModel
deriving DecidableEq, Repr

/-- `EventType#value`. -/
def EventType.value : EventType → String
  | .domainEvent => "domain-event"
  | .command => "command"
  | .policy => "policy"
  | .externalSystem => "external-system"
  | .aggregateMarker => "aggregate"
  | .readModel => "read-model"

/-- The `EventType` constructor: only the six listed strings are accepted. -/
def EventType.parse (s : String) : Except String EventType :=
  if s = "domain-event" then .ok .domainEvent
  else if s = "command" then .ok .command
  else if s = "policy" then .ok .policy
  else if s = "external-system" then .ok .externalSystem
  else if s = "aggregate" then .ok .aggregateMarker
  else if s = "read-model" then .ok .readModel
  else .error ("Invalid event type: " ++ s)

/-- `EventType.isCommand`. -/
def EventType.isCommand : EventType → Bool
  | .command => true
  | _ => false

/-- `EventType.isDomainEvent`. -/
def EventType.isDomainEvent : EventType → Bool
  | .domainEvent => true
  | _ => false

/-- The `Event` entity.  `id` holds the string value of the `EventId`, `name`
the string value of the `EventName`; timestamps are abstract instants. -/
structure Event where
  id : String
  name : String
  type : EventType
  position : Pos
  description : Option String
  createdAt : ℕ
  lastModified : ℕ
deriving DecidableEq, Repr

/-! ## The `EventStormingBoard` domain service (`Aggregate.ts`, second half) -/

/-- A derived card rectangle (`getBounds` result shape). -/
structure Rect where
  left : Q
  top : Q
  right : Q
  bottom : Q
deriving DecidableEq, Repr

/-- `EventStormingBoard#getBounds`: the rectangle of a card named `eventName`
placed at `position`, derived from the live name via
`getEventCardDimensions`. -/
def getBounds (position : Pos) (eventName : String) : Rect :=
  let dimensions := getEventCardDimensions eventName
  { left := position.x
    top := position.y
    right := Q.add position.x (Q.ofInt dimensions.width)
    bottom := Q.add position.y (Q.ofInt dimensions.height) }

/-- The separating-axis test from `hasOverlappingEvent` (`isSeparated`):
true when the two rectangles do not strictly overlap; rectangles that merely
touch at an edge are separated. -/
def isSeparated (a b : Rect) : Bool :=
  Q.le a.right b.left || Q.le b.right a.left || Q.le a.bottom b.top || Q.le b.bottom a.top

/-- `MAX_EVENT_DISTANCE` (`Aggregate.ts`). -/
def maxEventDistance : ℤ := 500

/-- `CLUSTERING_DISTANCE` (`EventStormingBoard`). -/
def clusteringDistance : ℤ := 300

/-- The `Aggregate` entity.  `id` holds the string value of the generated
`AggregateId`, `name` the string value of the `AggregateName`. -/
structure Aggregate where
  id : String
  name : String
  events : List Event
  createdAt : ℕ
  lastModified : ℕ
deriving DecidableEq, Repr

/-- `Aggregate.containsEvent`: some member's id equals the given id
(`EventId.equals` is string equality of the normalized values). -/
def Aggregate.containsEvent (a : Aggregate) (eventId : String) : Bool :=
  a.events.any (fun e => e.id == eventId)

/-- `Aggregate.getCenter`: the member-position mean, `Math.round`ed per
coordinate; `none` when there are no members. -/
def Aggregate.getCenter (a : Aggregate) : Option Pos :=
  if a.events.length = 0 then none
  else
    let sumX := a.events.foldl (fun s e => Q.add s e.position.x) (Q.ofInt 0)
    let sumY := a.events.foldl (fun s e => Q.add s e.position.y) (Q.ofInt 0)
    let centerX := Q.round (Q.div sumX (Q.ofInt a.events.length))
    let centerY := Q.round (Q.div sumY (Q.ofInt a.events.length))
    some { x := Q.ofInt centerX, y := Q.ofInt centerY }

/-- `Aggregate.canAddEvent`: an empty aggregate always accepts; otherwise the
candidate must lie within `MAX_EVENT_DISTANCE` of the current centroid. -/
def Aggregate.canAddEvent (a : Aggregate) (event : Event) : Bool :=
  if a.events.length = 0 then true
  else
    match a.getCenter with
    | none => true
    | some center => event.position.distLe center (Q.ofInt maxEventDistance)

/-- `Aggregate.addEvent`: rejects duplicates and members too far from the
centroid; on success appends the member and bumps `lastModified`. -/
def Aggregate.addEvent (a : Aggregate) (event : Event) (now : ℕ) : Aggregate × Option String :=
  if a.containsEvent event.id then (a, some "Event already exists in this aggregate")
  else if !(a.canAddEvent event) then (a, some "Event too far from aggregate")
  else ({ a with events := a.events ++ [event], lastModified := now }, none)

/-- The `EventStormingBoard`.  `events` is the insertion-ordered id-keyed map
(ids are unique on every reachable board); `connections` is the directed
connection list (see `Board.addConnection`). -/
structure Board where
  id : String
  events : List Event
  aggregates : List Aggregate
  connections : List (String × String)
deriving DecidableEq, Repr

/-- `EventStormingBoard.create`: a fresh empty board. -/
def Board.create (id : String) : Board := ⟨id, [], [], []⟩

/-- `getAllEvents` (insertion order of the map). -/
def Board.getAllEvents (b : Board) : List Event := b.events

/-- `hasOverlappingEvent`: scans every current card except `excludeEventId`,
recomputing its rectangle from its live name and position, and reports true
on the first rectangle not separated from the candidate's. -/
def Board.hasOverlappingEvent (b : Board) (position : Pos) (excludeEventId : Option String)
    (candidateName : String) : Bool :=
  let candidateBounds := getBounds position candidateName
  b.events.any fun event =>
    match excludeEventId with
    | some ex => if event.id == ex then false
        else !(isSeparated candidateBounds (getBounds event.position event.name))
    | none => !(isSeparated candidateBounds (getBounds event.position event.name))

/-- `EventStormingBoard.addEvent`: duplicate-id check, then overlap check at
the card's position against its own name; on success the card is appended. -/
def Board.addEvent (b : Board) (event : Event) : Board × Option String :=
  if b.events.any (fun e => e.id == event.id) then
    (b, some "Event already exists on board")
  else if b.hasOverlappingEvent event.position none event.name then
    (b, some "Event position overlaps with existing event")
  else ({ b with events := b.events ++ [event] }, none)

/-- `EventStormingBoard.moveEvent`: not-found check, then the overlap check
(excluding the card itself, against its live name), then `Event.moveTo`
(which rejects positions outside the board extent before mutating anything).
On success the position and `lastModified` are updated in place. -/
def Board.moveEvent (b : Board) (eventId : String) (newPosition : Pos) (now : ℕ) :
    Board × Option String :=
  match b.events.find? (fun e => e.id == eventId) with
  | none => (b, some "Event not found on board")
  | some event =>
    if b.hasOverlappingEvent newPosition (some eventId) event.name then
      (b, some "Event position overlaps with existing event")
    else if !newPosition.isWithinBounds then
      (b, some "Position out of bounds")
    else
      ({ b with events := b.events.map fun e =>
          if e.id == eventId then { e with position := newPosition, lastModified := now } else e },
        none)

/-- Stable insertion placing `e` after every element whose `x` is strictly
smaller and before every element whose `x` is greater or equal. -/
def insertByX (e : Event) : List Event → List Event
  | [] => [e]
  | y :: ys => if Q.lt y.position.x e.position.x then y :: insertByX e ys else e :: y :: ys

/-- `getEventsSortedByPosition`: ascending stable sort by `position.x`
(JavaScript `Array.prototype.sort` with comparator `a.position.x -
b.position.x` is a stable sort, whose output is uniquely determined by the
key order, so any stable sort embeds it; insertion sort keeps the kernel
computation structural). -/
def Board.getEventsSortedByPosition (b : Board) : List Event :=
  b.events.foldr insertByX []

/-- The error list of `validateFlow`, as the left-to-right scan over the
x-sorted sequence: each `command` card must be immediately followed by a card,
and that card must be a `domain-event`. -/
def flowErrors : List Event → List String
  | [] => []
  | current :: rest =>
    (if current.type.isCommand then
      match rest with
      | [] => ["Command \"" ++ current.name ++ "\" must be followed by an event"]
      | next :: _ =>
        if !next.type.isDomainEvent then
          ["Command \"" ++ current.name ++ "\" must be followed by a domain event, but found "
            ++ next.type.value]
        else []
    else []) ++ flowErrors rest

/-- The ids that may still be newly visited by the BFS worklist loop: ids in
the queue or on the board and not yet visited. -/
def bfsSetOf (all queue : List Event) (visited : List String) : Finset String :=
  ((queue.map Event.id).toFinset ∪ (all.map Event.id).toFinset) \ visited.toFinset

/-- Termination measure for the BFS worklist loop. -/
def bfsMeasure (all queue : List Event) (visited : List String) : ℕ :=
  (bfsSetOf all queue visited).card

/-- The `while` loop of `EventStormingBoard.findCluster`: pop the queue;
skip already-visited cards; otherwise mark the card visited, append it to the
cluster, and enqueue every not-yet-visited card of the board within
`CLUSTERING_DISTANCE` of it.  Returns the grown cluster together with the
final visited set (the source mutates a shared `Set`). -/
def findClusterLoop (all : List Event) : List Event → List String → List Event →
    List Event × List String
  | [], visited, cluster => (cluster, visited)
  | current :: rest, visited, cluster =>
    if h : visited.contains current.id then
      findClusterLoop all rest visited cluster
    else
      findClusterLoop all
        (rest ++ all.filter fun neighbor =>
          !((current.id :: visited).contains neighbor.id)
            && current.position.distLe neighbor.position (Q.ofInt clusteringDistance))
        (current.id :: visited) (cluster ++ [current])
termination_by queue visited _ => (bfsMeasure all queue visited, queue.length)
decreasing_by
  · have hle : bfsMeasure all rest visited ≤ bfsMeasure all (current :: rest) visited := by
      apply Finset.card_le_card
      simp only [bfsSetOf]
      intro x hx
      simp only [Finset.mem_sdiff, Finset.mem_union, List.mem_toFinset, List.map_cons,
        List.mem_cons] at hx ⊢
      exact ⟨hx.1.elim (fun hq => Or.inl (Or.inr hq)) Or.inr, hx.2⟩
    rcases lt_or_eq_of_le hle with hlt | heq
    · exact Prod.Lex.left _ _ hlt
    · rw [heq]
      exact Prod.Lex.right _ (by simp)
  · apply Prod.Lex.left
    simp only [bfsMeasure]
    apply Finset.card_lt_card
    have hsub : bfsSetOf all (rest ++ all.filter fun neighbor =>
          !((current.id :: visited).contains neighbor.id)
            && current.position.distLe neighbor.position (Q.ofInt clusteringDistance))
          (current.id :: visited)
        ⊆ bfsSetOf all (current :: rest) visited := by
      intro x hx
      simp only [bfsSetOf, Finset.mem_sdiff, Finset.mem_union, List.mem_toFinset,
        List.map_cons, List.mem_cons, List.map_append, List.mem_append,
        List.toFinset_cons, Finset.mem_insert] at hx ⊢
      obtain ⟨hin, hnv⟩ := hx
      refine ⟨?_, fun hv => hnv (Or.inr hv)⟩
      rcases hin with (hq | hq) | ha
      · exact Or.inl (Or.inr hq)
      · rcases List.mem_map.mp hq with ⟨n, hn, rfl⟩
        exact Or.inr (List.mem_map.mpr ⟨n, (List.mem_filter.mp hn).1, rfl⟩)
      · exact Or.inr ha
    refine Finset.ssubset_def.mpr ⟨hsub, fun hsub2 => ?_⟩
    have hc : current.id ∈ bfsSetOf all (current :: rest) visited := by
      simp only [bfsSetOf, Finset.mem_sdiff, Finset.mem_union, List.mem_toFinset,
        List.map_cons, List.mem_cons, List.mem_map]
      exact ⟨Or.inl (Or.inl trivial), fun hv => h (List.elem_iff.mpr hv)⟩
    have hc2 := hsub2 hc
    simp only [bfsSetOf, Finset.mem_sdiff, List.toFinset_cons, Finset.mem_insert] at hc2
    exact hc2.2 (Or.inl trivial)

/-- The `for` loop of `EventStormingBoard.detectAggregates`: run the BFS from
every not-yet-visited card, collecting the resulting (nonempty) clusters in
discovery order. -/
def detectLoop (all : List Event) : List Event → List String → List (List Event) →
    List (List Event) × List String
  | [], visited, clusters => (clusters, visited)
  | event :: rest, visited, clusters =>
    if visited.contains event.id then detectLoop all rest visited clusters
    else
      let r := findClusterLoop all [event] visited []
      detectLoop all rest r.2 (if r.1.length > 0 then clusters ++ [r.1] else clusters)

/-- `EventStormingBoard.detectAggregates`: with no cards the stored aggregate
list is replaced by `[]`; otherwise the clusters found by the BFS become the
new aggregates `"Aggregate 1"`, `"Aggregate 2"`, ... in discovery order,
fully replacing the previous list.  `gen` supplies the generated
`AggregateId`s, `now` the construction timestamps. -/
def Board.detectAggregates (gen : ℕ → String) (now : ℕ) (b : Board) :
    Board × List Aggregate :=
  let events := b.getAllEvents
  if events.length = 0 then ({ b with aggregates := [] }, [])
  else
    let clusters := (detectLoop events events [] []).1
    let aggs := clusters.mapIdx fun index cluster =>
      { id := gen index
        name := "Aggregate " ++ toString (index + 1)
        events := cluster
        createdAt := now
        lastModified := now }
    ({ b with aggregates := aggs }, aggs)

/-- `ValidationResult`. -/
structure ValidationResult where
  isValid : Bool
  errors : List String
deriving DecidableEq, Repr

/-- `EventStormingBoard.validateFlow`. -/
def Board.validateFlow (b : Board) : ValidationResult :=
  let errors := flowErrors b.getEventsSortedByPosition
  { isValid := errors.length == 0, errors := errors }

/-! ## String utilities and validated value-object constructors -/

/-- ASCII lowercasing of one character (`String.prototype.toLowerCase`).
No Unicode character outside `A`-`Z` lowercases into the character classes
of the UUID pattern (`0-9a-f-`), so restricting the mapping to ASCII letters
does not change any validation outcome below. -/
def toLowerChar (c : Char) : Char :=
  if 65 ≤ c.toNat && c.toNat ≤ 90 then Char.ofNat (c.toNat + 32) else c

/-- `value.toLowerCase()`. -/
def toLowerStr (s : String) : String := String.mk (s.data.map toLowerChar)

/-- Whitespace for `String.prototype.trim` (tab, LF, VT, FF, CR, space). -/
def isTrimWs (c : Char) : Bool :=
  c.toNat = 9 || c.toNat = 10 || c.toNat = 11 || c.toNat = 12 || c.toNat = 13 || c.toNat = 32

/-- `value.trim()`. -/
def trimStr (s : String) : String :=
  String.mk (((s.data.dropWhile isTrimWs).reverse.dropWhile isTrimWs).reverse)

/-- `MAX_NAME_LENGTH` (`EventName.ts`). -/
def maxNameLength : ℕ := 200

/-- The `EventName` constructor: trims, then rejects the empty and the
over-long name; returns the stored string value. -/
def mkEventName (value : String) : Except String String :=
  let trimmedValue := trimStr value
  if trimmedValue.length = 0 then .error "Event name cannot be empty"
  else if trimmedValue.length > maxNameLength then
    .error "Event name too long (max 200 characters)"
  else .ok trimmedValue

/-- A hexadecimal digit, either case (the `/i` flag on `[0-9a-f]`). -/
def isHexDigitCI (c : Char) : Bool :=
  (48 ≤ c.toNat && c.toNat ≤ 57) || (97 ≤ c.toNat && c.toNat ≤ 102)
    || (65 ≤ c.toNat && c.toNat ≤ 70)

/-- Position-wise content of `UUID_V4_REGEX`
(`/^[0-9a-f]{8}-[0-9a-f]{4}-4[0-9a-f]{3}-[89ab][0-9a-f]{3}-[0-9a-f]{12}$/i`):
hyphens at offsets 8, 13, 18, 23, the version digit `4` at offset 14, the
variant digit at offset 19, hex digits elsewhere. -/
def uuidCharOk (i : ℕ) (c : Char) : Bool :=
  if i = 8 || i = 13 || i = 18 || i = 23 then c = '-'
  else if i = 14 then c = '4'
  else if i = 19 then c = '8' || c = '9' || c = 'a' || c = 'b' || c = 'A' || c = 'B'
  else isHexDigitCI c

/-- `UUID_V4_REGEX.test` (the anchored pattern forces length 36). -/
def isValidUUID (s : String) : Bool :=
  s.data.length = 36 && s.data.enum.all fun p => uuidCharOk p.1 p.2

/-- The `EventId` constructor: lowercases, validates against the UUID v4
pattern, and stores the normalized string. -/
def mkEventId (value : String) : Except String String :=
  let normalizedValue := toLowerStr value
  if isValidUUID normalizedValue then .ok normalizedValue
  else .error "Invalid UUID format for EventId"

/-- The `BoardId` constructor (same normalization and pattern). -/
def mkBoardId (value : String) : Except String String :=
  let normalizedValue := toLowerStr value
  if isValidUUID normalizedValue then .ok normalizedValue
  else .error "Invalid UUID format for BoardId"

/-- The `Position` constructor / `Position.fromJSON`: rejects negative
coordinates. -/
def mkPosition (p : Pos) : Except String Pos :=
  if Q.lt p.x (Q.ofInt 0) || Q.lt p.y (Q.ofInt 0) then .error "Position cannot be negative"
  else .ok p

/-! ## Connections

The board methods `addConnection` and `getAllConnections` are exercised by
the serializer and by `GetBoardStateHandler.test.ts`, but the board source
file defining them is not part of the available sources (the available
`EventStormingBoard` section of `Aggregate.ts` predates connections). -/

/-- Modelled from the spec: `add-connection(sourceId, targetId)` appends a
directed connection record (an ordered pair of card ids) to the board's
connection list (spec sections 3 and 6). -/
def Board.addConnection (b : Board) (sourceId targetId : String) : Board :=
  { b with connections := b.connections ++ [(sourceId, targetId)] }

/-- Modelled from the spec: `getAllConnections` returns the board's list of
connection records `{sourceId, targetId}` (spec section 6). -/
def Board.getAllConnections (b : Board) : List (String × String) := b.connections

/-! ## The connection router (`cardConnectionRouting`) -/

/-- `Point`. -/
structure Point where
  x : Q
  y : Q
deriving DecidableEq, Repr

/-- `CardRect`. -/
structure CardRect where
  left : Q
  right : Q
  top : Q
  bottom : Q
deriving DecidableEq, Repr

/-- `DEFAULT_MARGIN`. -/
def defaultMargin : Q := Q.ofInt 24

/-- `getExitPoint`: the midpoint of the edge of `fromRect` facing `toRect`
most directly (the longer center-to-center axis wins; ties go to the
horizontal axis). -/
def getExitPoint (fromRect toRect : CardRect) : Point :=
  let fromCenterX := Q.div (Q.add fromRect.left fromRect.right) (Q.ofInt 2)
  let fromCenterY := Q.div (Q.add fromRect.top fromRect.bottom) (Q.ofInt 2)
  let toCenterX := Q.div (Q.add toRect.left toRect.right) (Q.ofInt 2)
  let toCenterY := Q.div (Q.add toRect.top toRect.bottom) (Q.ofInt 2)
  let dx := Q.sub toCenterX fromCenterX
  let dy := Q.sub toCenterY fromCenterY
  if Q.le (Q.abs dy) (Q.abs dx) then
    { x := if Q.le (Q.ofInt 0) dx then fromRect.right else fromRect.left, y := fromCenterY }
  else
    { x := fromCenterX, y := if Q.le (Q.ofInt 0) dy then fromRect.bottom else fromRect.top }

/-- `createCandidates`: the two L-shaped direct routes plus the four Z-shaped
detours around the margin-inflated combined bounding region. -/
def createCandidates (start finish : Point) (source target : CardRect) (margin : Q) :
    List (List Point) :=
  let minY := Q.sub (Q.min source.top target.top) margin
  let maxY := Q.add (Q.max source.bottom target.bottom) margin
  let minX := Q.sub (Q.min source.left target.left) margin
  let maxX := Q.add (Q.max source.right target.right) margin
  [ [start, { x := finish.x, y := start.y }, finish],
    [start, { x := start.x, y := finish.y }, finish],
    [start, { x := start.x, y := minY }, { x := finish.x, y := minY }, finish],
    [start, { x := start.x, y := maxY }, { x := finish.x, y := maxY }, finish],
    [start, { x := minX, y := start.y }, { x := minX, y := finish.y }, finish],
    [start, { x := maxX, y := start.y }, { x := maxX, y := finish.y }, finish] ]

/-- `routeLength`: total Manhattan length of a polyline. -/
def routeLength : List Point → Q
  | a :: b :: rest =>
    Q.add (Q.add (Q.abs (Q.sub b.x a.x)) (Q.abs (Q.sub b.y a.y))) (routeLength (b :: rest))
  | _ => Q.ofInt 0

/-- `selectShortestRoute`: `reduce` with the first route as the seed, keeping
the strictly shorter of the two at each step (so the first minimum wins);
`none` on an empty list (where the source would produce `undefined`). -/
def selectShortestRoute (routes : List (List Point)) : Option (List Point) :=
  match routes with
  | [] => none
  | r :: _ =>
    some (routes.foldl (fun best route =>
      if Q.lt (routeLength route) (routeLength best) then route else best) r)

/-- `expandRect`. -/
def expandRect (rect : CardRect) (delta : Q) : CardRect :=
  { left := Q.sub rect.left delta
    right := Q.add rect.right delta
    top := Q.sub rect.top delta
    bottom := Q.add rect.bottom delta }

/-- `segmentIntersectsRect`: an axis-aligned segment hits the rectangle iff
its line offset lies within the rectangle band and its span meets the
rectangle's extent; a non-axis-aligned segment counts as intersecting. -/
def segmentIntersectsRect (a b : Point) (rect : CardRect) : Bool :=
  if Q.valEq a.x b.x then
    if Q.lt a.x rect.left || Q.lt rect.right a.x then false
    else Q.le rect.top (Q.max a.y b.y) && Q.le (Q.min a.y b.y) rect.bottom
  else if Q.valEq a.y b.y then
    if Q.lt a.y rect.top || Q.lt rect.bottom a.y then false
    else Q.le rect.left (Q.max a.x b.x) && Q.le (Q.min a.x b.x) rect.right
  else true

/-- The per-segment scan of `isRouteClear`: each segment must be axis-aligned
and clear of every blocked rectangle. -/
def routeSegmentsClear (blocked : List CardRect) : List Point → Bool
  | a :: b :: rest =>
    (Q.valEq a.x b.x || Q.valEq a.y b.y)
      && blocked.all (fun obstacle => !(segmentIntersectsRect a b obstacle))
      && routeSegmentsClear blocked (b :: rest)
  | _ => true

/-- `isRouteClear`: obstacles other than the source and target rectangles
(the source compares object identity; value equality embeds it, and the two
agree unless an obstacle duplicates the source or target rectangle exactly),
each inflated by `margin * 0.2`. -/
def isRouteClear (route : List Point) (obstacles : List CardRect)
    (source target : CardRect) (margin : Q) : Bool :=
  let blocked := (obstacles.filter fun obstacle => !(obstacle == source) && !(obstacle == target)).map
    fun obstacle => expandRect obstacle (Q.mul margin ⟨2, 10⟩)
  routeSegmentsClear blocked route

/-- The collapsing loop of `simplifyRoute` over the interior points:
`prev` is the last point already emitted; a point collinear with `prev` and
its successor is dropped; the final point is always emitted. -/
def simplifyMid (prev : Point) : List Point → List Point
  | [] => []
  | [last] => [last]
  | curr :: next :: rest =>
    if (Q.valEq prev.x curr.x && Q.valEq curr.x next.x)
        || (Q.valEq prev.y curr.y && Q.valEq curr.y next.y) then
      simplifyMid prev (next :: rest)
    else curr :: simplifyMid curr (next :: rest)

/-- `simplifyRoute` (the source operates on the flattened coordinate array;
routes always have even flat length, so the point-level loop is the same
computation): routes of at most two points pass through unchanged. -/
def simplifyRoute (points : List Point) : List Point :=
  if points.length ≤ 2 then points
  else
    match points with
    | [] => points
    | p0 :: restPoints => p0 :: simplifyMid p0 restPoints

/-- The `candidates` local of `buildCardConnectionRoute`: the six polylines
between the two exit points. -/
def routerCandidates (source target : CardRect) (margin : Q) : List (List Point) :=
  createCandidates (getExitPoint source target) (getExitPoint target source)
    source target margin

/-- The `validCandidates` local of `buildCardConnectionRoute`. -/
def routerValidCandidates (source target : CardRect) (obstacles : List CardRect)
    (margin : Q) : List (List Point) :=
  (routerCandidates source target margin).filter
    fun c => isRouteClear c obstacles source target margin

/-- `buildCardConnectionRoute`: exit points, six candidates, the valid ones
(orthogonal and obstacle-free) if any, shortest by Manhattan length,
simplified.  `none` only when `selectShortestRoute` hits an empty list,
which `buildCardConnectionRoute_spec` shows is impossible. -/
def buildCardConnectionRoute (source target : CardRect) (obstacles : List CardRect)
    (margin : Q) : Option (List Point) :=
  let candidates := routerCandidates source target margin
  let validCandidates := routerValidCandidates source target obstacles margin
  match selectShortestRoute (if validCandidates.length > 0 then validCandidates else candidates) with
  | none => none
  | some selected => some (simplifyRoute selected)

/-! ## The JSON serializer

`JSONSerializer` is embedded at the data level: `BoardJSON` is the record
shape produced by `serialize` before `JSON.stringify` and consumed by
`deserialize` after `JSON.parse` (the stringify/parse pair is the identity
on this record content). -/

/-- `EventJSON`. -/
structure EventJSON where
  id : String
  name : String
  type : String
  position : Pos
  description : Option String
  createdAt : ℕ
  lastModified : ℕ
deriving DecidableEq, Repr

/-- `BoardJSON` (`connections` is optional in the source; an absent field
reads as the empty list via `?? []`). -/
structure BoardJSON where
  version : String
  boardId : String
  events : List EventJSON
  connections : List (String × String)
deriving DecidableEq, Repr

/-- `SUPPORTED_VERSION`. -/
def supportedVersion : String := "1.0"

/-- `JSONSerializer.serializeEvent`. -/
def serializeEvent (e : Event) : EventJSON :=
  { id := e.id
    name := e.name
    type := e.type.value
    position := e.position
    description := e.description
    createdAt := e.createdAt
    lastModified := e.lastModified }

/-- `JSONSerializer.serialize`. -/
def serialize (board : Board) : BoardJSON :=
  { version := supportedVersion
    boardId := board.id
    events := board.getAllEvents.map serializeEvent
    connections := board.getAllConnections }

/-- `JSONSerializer.deserializeEvent` / `Event.fromJSON`: re-validates id,
name, type and position through the value-object constructors. -/
def deserializeEvent (json : EventJSON) : Except String Event := do
  let id ← mkEventId json.id
  let name ← mkEventName json.name
  let type ← EventType.parse json.type
  let position ← mkPosition json.position
  pure { id := id, name := name, type := type, position := position,
         description := json.description, createdAt := json.createdAt,
         lastModified := json.lastModified }

/-- `isWithinBoard` (the serializer's own bound check, all four sides). -/
def isWithinBoard (p : Pos) : Bool :=
  Q.le (Q.ofInt 0) p.x && Q.le (Q.ofInt 0) p.y
    && Q.le p.x (Q.ofInt boardMax) && Q.le p.y (Q.ofInt boardMax)

/-- One ring of `findAvailablePosition` candidates, in push order: the top
and bottom rows interleaved over `dx ∈ [-ring, ring]`, then the left and
right columns interleaved over `dy ∈ [-(ring-1), ring-1]`. -/
def ringCandidates (requestedPosition : Pos) (ring : ℕ) : List Pos :=
  let step : ℤ := 60
  let distance : ℤ := ring * step
  let rowIdx := (List.range (2 * ring + 1)).map fun k => (k : ℤ) - ring
  let colIdx := (List.range (2 * (ring - 1) + 1)).map fun k => (k : ℤ) - ((ring : ℤ) - 1)
  ((rowIdx.map fun dx =>
    [ { x := Q.add requestedPosition.x (Q.ofInt (dx * step)),
        y := Q.sub requestedPosition.y (Q.ofInt distance) },
      { x := Q.add requestedPosition.x (Q.ofInt (dx * step)),
        y := Q.add requestedPosition.y (Q.ofInt distance) } ]).flatten)
  ++ ((colIdx.map fun dy =>
    [ { x := Q.sub requestedPosition.x (Q.ofInt distance),
        y := Q.add requestedPosition.y (Q.ofInt (dy * step)) },
      { x := Q.add requestedPosition.x (Q.ofInt distance),
        y := Q.add requestedPosition.y (Q.ofInt (dy * step)) } ]).flatten)

/-- `findAvailablePosition`: the requested position if free, otherwise the
first free in-board candidate over rings 1..60 (step 60), otherwise the
requested position again. -/
def findAvailablePosition (board : Board) (requestedPosition : Pos) (eventName : String) : Pos :=
  if !(board.hasOverlappingEvent requestedPosition none eventName) then requestedPosition
  else
    let candidates := ((List.range 60).map fun r => ringCandidates requestedPosition (r + 1)).flatten
    match candidates.find? (fun c =>
        isWithinBoard c && !(board.hasOverlappingEvent c none eventName)) with
    | some c => c
    | none => requestedPosition

/-- The event-restoring loop of `deserialize`: each event is re-validated,
relocated by `findAvailablePosition` when its position conflicts (via
`Event.moveTo`, which enforces the board extent and bumps `lastModified` to
`now`), and added to the board. -/
def restoreEvents (now : ℕ) : Board → List EventJSON → Except String Board
  | board, [] => .ok board
  | board, json :: rest => do
    let event ← deserializeEvent json
    let availablePosition := findAvailablePosition board event.position event.name
    let event ←
      if !(event.position.posEq availablePosition) then
        if !availablePosition.isWithinBounds then .error "Position out of bounds"
        else .ok { event with position := availablePosition, lastModified := now }
      else .ok event
    match board.addEvent event with
    | (_, some message) => .error message
    | (board2, none) => restoreEvents now board2 rest

/-- The connection-restoring loop of `deserialize`: a connection is re-added
only when both endpoint events are found on the restored board. -/
def restoreConnections : Board → List (String × String) → Board
  | board, [] => board
  | board, (sourceId, targetId) :: rest =>
    match board.getAllEvents.find? (fun e => e.id == sourceId),
        board.getAllEvents.find? (fun e => e.id == targetId) with
    | some source, some target =>
      restoreConnections (board.addConnection source.id target.id) rest
    | _, _ => restoreConnections board rest

/-- `JSONSerializer.deserialize`: version checks (an empty version string is
the falsy "missing" case), board id validation, event restoration,
connection restoration. -/
def deserialize (now : ℕ) (data : BoardJSON) : Except String Board := do
  if data.version = "" then throw "Missing version information"
  else if data.version ≠ supportedVersion then
    throw ("Unsupported version: " ++ data.version)
  else
    let boardId ← mkBoardId data.boardId
    let board ← restoreEvents now (Board.create boardId) data.events
    pure (restoreConnections board data.connections)

/-! ## Operation sequences (for the board invariants) -/

/-- One externally invocable mutation of the card store, with its oracle
inputs (`now` for `new Date()`). -/
inductive BoardOp where
  | add (event : Event)
  | move (eventId : String) (newPosition : Pos) (now : ℕ)

/-- Apply one operation. -/
def applyOp (b : Board) : BoardOp → Board × Option String
  | .add event => b.addEvent event
  | .move eventId newPosition now => b.moveEvent eventId newPosition now

/-- Run a sequence of operations; the flag is true iff every operation
succeeded (execution stops at the first failure, whose state the failing
operation leaves unchanged). -/
def runOps : Board → List BoardOp → Board × Bool
  | b, [] => (b, true)
  | b, op :: rest =>
    match applyOp b op with
    | (b2, none) => runOps b2 rest
    | (b2, some _) => (b2, false)

/-! ## Concrete fixtures used by counterexamples and witnesses -/

/-- A card at (9900, 100): its rectangle reaches `x = 10020`, past the board
edge. -/
def cardA : Event :=
  ⟨"ida", "A", .domainEvent, ⟨Q.ofInt 9900, Q.ofInt 100⟩, none, 0, 0⟩

/-- A card at (100, 100). -/
def cardB : Event :=
  ⟨"idb", "B", .domainEvent, ⟨Q.ofInt 100, Q.ofInt 100⟩, none, 0, 0⟩

/-- A two-card board. -/
def boardAB : Board := ⟨"board", [cardA, cardB], [], []⟩

/-- A card at (20000, 0), far outside the 10000-wide board extent. -/
def farCard : Event :=
  ⟨"idf", "A", .domainEvent, ⟨Q.ofInt 20000, Q.ofInt 0⟩, none, 0, 0⟩

/-- A command card at x = 100. -/
def cmdCard : Event :=
  ⟨"idc", "Register User", .command, ⟨Q.ofInt 100, Q.ofInt 100⟩, none, 0, 0⟩

/-- A domain-event card at x = 200. -/
def evtCard : Event :=
  ⟨"ide", "User Registered", .domainEvent, ⟨Q.ofInt 200, Q.ofInt 100⟩, none, 0, 0⟩

/-- Flow example board: one command then one domain event. -/
def flowBoard1 : Board := ⟨"board", [cmdCard, evtCard], [], []⟩

/-- Flow example board: a lone command. -/
def flowBoard2 : Board := ⟨"board", [cmdCard], [], []⟩

/-- A policy card at x = 200. -/
def policyCard : Event :=
  ⟨"idp", "Retry Policy", .policy, ⟨Q.ofInt 200, Q.ofInt 100⟩, none, 0, 0⟩

/-- Flow example board: a command whose next card has the wrong type. -/
def flowBoard3 : Board := ⟨"board", [cmdCard, policyCard], [], []⟩

/-- Witness card 1 for the invariant run. -/
def wCard1 : Event := ⟨"w1", "A", .domainEvent, ⟨Q.ofInt 100, Q.ofInt 100⟩, none, 0, 0⟩

/-- Witness card 2 for the invariant run. -/
def wCard2 : Event := ⟨"w2", "B", .domainEvent, ⟨Q.ofInt 400, Q.ofInt 100⟩, none, 0, 0⟩

/-- A witness operation sequence: two adds and a move, all succeeding. -/
def opsW : List BoardOp :=
  [.add wCard1, .add wCard2, .move "w1" ⟨Q.ofInt 700, Q.ofInt 100⟩ 5]

/-- The board reached by `opsW` from an empty board. -/
def finalW : Board :=
  ⟨"board",
    [⟨"w1", "A", .domainEvent, ⟨Q.ofInt 700, Q.ofInt 100⟩, none, 0, 5⟩, wCard2], [], []⟩

/-- C5 fixture: a card with a 43-unit name, which maxes the inner width out
at 300 so the card is 320 wide, at the origin. -/
def cexWide : Event :=
  ⟨"cw", "Customer Order Payment Processing Completed", .domainEvent,
    ⟨Q.ofInt 0, Q.ofInt 0⟩, none, 0, 0⟩

/-- C5 fixture: a card of minimal width (120), 400 to the right of
`cexWide`. -/
def cexNarrow : Event :=
  ⟨"cn", "E", .domainEvent, ⟨Q.ofInt 400, Q.ofInt 0⟩, none, 0, 0⟩

/-- C5 fixture board: both cards are 80 tall, so their centers are exactly
300 apart horizontally while their positions are 400 apart. -/
def cexBoard : Board := ⟨"board", [cexWide, cexNarrow], [], []⟩

/-- A concrete id generator for the cluster-detection runs. -/
def natGen : ℕ → String := fun i => toString i

/-- C4 fixture: the i-th card of a horizontal chain, named "E". -/
def chainEv (i : ℕ) (x : ℤ) : Event :=
  ⟨"c" ++ toString i, "E", .domainEvent, ⟨Q.ofInt x, Q.ofInt 0⟩, none, 0, 0⟩

/-- C4 fixture board: five chained cards with 300-pixel steps; the chain
spans 1200 pixels, so its centroid (600, 0) is 600 away from each end
card. -/
def chainBoard : Board :=
  ⟨"board",
    [chainEv 0 0, chainEv 1 300, chainEv 2 600, chainEv 3 900, chainEv 4 1200], [], []⟩

/-- C4 witness fixture: an aggregate holding the single member `cardB`. -/
def aggW : Aggregate := ⟨"agg", "Aggregate 1", [cardB], 0, 0⟩

/-- C8 witness fixture: a board with valid normalized UUIDs, two separated
cards, one connection between them, and a stale aggregate list. -/
def serB : Board :=
  ⟨"c0eebc99-9c0b-4ef8-bb6d-6bb9bd380a11",
   [⟨"a0eebc99-9c0b-4ef8-bb6d-6bb9bd380a11", "Order Created", .domainEvent,
      ⟨Q.ofInt 100, Q.ofInt 200⟩, none, 3, 4⟩,
    ⟨"b0eebc99-9c0b-4ef8-bb6d-6bb9bd380a11", "Create Order", .command,
      ⟨Q.ofInt 600, Q.ofInt 200⟩, some "desc", 5, 6⟩],
   [⟨"agg", "Old", [], 0, 0⟩],
   [("a0eebc99-9c0b-4ef8-bb6d-6bb9bd380a11", "b0eebc99-9c0b-4ef8-bb6d-6bb9bd380a11")]⟩

/-! ## Derived invariant predicates -/

/-- Equality of `Except` results is decidable. -/
instance {g a : Type} [DecidableEq g] [DecidableEq a] : DecidableEq (Except g a)
  | .ok x, .ok y =>
    decidable_of_iff (x = y) ⟨fun h => by rw [h], fun h => by injection h⟩
  | .error x, .error y =>
    decidable_of_iff (x = y) ⟨fun h => by rw [h], fun h => by injection h⟩
  | .ok _, .error _ => isFalse (fun h => Except.noConfusion h)
  | .error _, .ok _ => isFalse (fun h => Except.noConfusion h)


/-- The derived rectangle of a card, always recomputed from its live name and
position. -/
def rectOfEvent (e : Event) : Rect := getBounds e.position e.name

/-- Two cards' derived rectangles do not intersect (touching allowed). -/
def eventsSeparated (e1 e2 : Event) : Prop :=
  isSeparated (rectOfEvent e1) (rectOfEvent e2) = true

/-- Separation of two concrete cards is decidable. -/
instance (e1 e2 : Event) : Decidable (eventsSeparated e1 e2) :=
  decidable_of_iff (isSeparated (rectOfEvent e1) (rectOfEvent e2) = true) Iff.rfl

/-- The fraction denominators of a position are positive (every position a
JavaScript program can build satisfies this). -/
def posHasPosDen (p : Pos) : Prop := 0 < p.x.den ∧ 0 < p.y.den

/-- The positions fed into an operation are genuine numbers. -/
def opWellFormed : BoardOp → Prop
  | .add event => posHasPosDen event.position
  | .move _ newPosition _ => posHasPosDen newPosition

/-- The fraction denominators of a router point are positive. -/
def pointPosDen (p : Point) : Prop := 0 < p.x.den ∧ 0 < p.y.den

/-- The fraction denominators of a card rectangle are positive (every
rectangle a JavaScript program can build satisfies this). -/
def rectPosDen (r : CardRect) : Prop :=
  0 < r.left.den ∧ 0 < r.right.den ∧ 0 < r.top.den ∧ 0 < r.bottom.den

/-- Two cards are within the clustering radius of each other (the proximity
edge of the cluster detector). -/
def nearEvents (u v : Event) : Prop :=
  u.position.distLe v.position (Q.ofInt clusteringDistance) = true

/-- Every non-seed member of a cluster list is within the clustering radius
of some earlier member (the order in which the BFS accepted them). -/
def linkedCluster (cl : List Event) : Prop :=
  ∀ pre x post, cl = pre ++ x :: post → pre = [] ∨ ∃ y ∈ pre, y ≠ x ∧ nearEvents y x

/-- The center of a card: its position offset by half its derived
dimensions.  This definition renders C5's wording ("Euclidean
center-to-center distance"); the code instead measures distances between the
cards' positions, and the two readings are compared in the C5 theorems. -/
def cardCenter (e : Event) : Pos :=
  let dims := getEventCardDimensions e.name
  ⟨Q.add e.position.x (Q.div (Q.ofInt dims.width) (Q.ofInt 2)),
    Q.add e.position.y (Q.div (Q.ofInt dims.height) (Q.ofInt 2))⟩

/-- Center-to-center proximity of two cards (C5's wording of the clustering
relation). -/
def nearCenters (u v : Event) : Prop :=
  (cardCenter u).distLe (cardCenter v) (Q.ofInt clusteringDistance) = true

/-- The no-overlap board invariant of the spec: all pairs of distinct cards'
derived rectangles are non-intersecting. -/
def noOverlapBoard (b : Board) : Prop := b.events.Pairwise eventsSeparated

/-- The full internal board invariant: unique ids, genuine positions,
pairwise separated rectangles. -/
def boardWf (b : Board) : Prop :=
  (b.events.map Event.id).Nodup ∧ (∀ e ∈ b.events, posHasPosDen e.position) ∧ noOverlapBoard b

end ES

namespace ES

/-! ## Basic lemmas about `Q` and the geometry -/

theorem Q.le_iff {a b : Q} : Q.le a b = true ↔ a.num * b.den ≤ b.num * a.den := by
  simp [Q.le]

theorem Q.lt_iff {a b : Q} : Q.lt a b = true ↔ a.num * b.den < b.num * a.den := by
  simp [Q.lt]

theorem Q.le_false_iff {a b : Q} : Q.le a b = false ↔ b.num * a.den < a.num * b.den := by
  simp [Q.le, Int.not_le]

theorem Q.lt_false_iff {a b : Q} : Q.lt a b = false ↔ b.num * a.den ≤ a.num * b.den := by
  simp [Q.lt, Int.not_lt]

/-- `isSeparated` is symmetric. -/
theorem isSeparated_symm (a b : Rect) : isSeparated a b = isSeparated b a := by
  simp only [isSeparated]
  cases Q.le a.right b.left <;> cases Q.le b.right a.left <;>
    cases Q.le a.bottom b.top <;> cases Q.le b.bottom a.top <;> rfl

/-- `eventsSeparated` is symmetric. -/
theorem eventsSeparated_symm {e1 e2 : Event} (h : eventsSeparated e1 e2) :
    eventsSeparated e2 e1 := by
  unfold eventsSeparated at *
  rw [isSeparated_symm]
  exact h

theorem Int.fdiv_neg_of_neg_of_pos' {a b : ℤ} (ha : a < 0) (hb : 0 < b) : Int.fdiv a b < 0 := by
  rw [Int.fdiv_eq_ediv _ (le_of_lt hb)]
  exact Int.ediv_neg' ha hb

/-- A fraction with positive numerator and denominator has positive ceiling. -/
theorem Q.ceil_pos {a : Q} (hn : 0 < a.num) (hd : 0 < a.den) : 0 < Q.ceil a := by
  unfold Q.ceil
  have := @Int.fdiv_neg_of_neg_of_pos' (-a.num) a.den (by omega) hd
  omega

/-- `Q.min` returns one of its arguments. -/
theorem Q.min_cases (a b : Q) : Q.min a b = a ∨ Q.min a b = b := by
  unfold Q.min
  split <;> simp

/-- `Q.max` returns one of its arguments. -/
theorem Q.max_cases (a b : Q) : Q.max a b = a ∨ Q.max a b = b := by
  unfold Q.max
  split <;> simp

/-- A left fold with `max` never drops below its seed. -/
theorem foldl_max_ge (l : List ℤ) : ∀ init : ℤ, init ≤ l.foldl Max.max init := by
  induction l with
  | nil => simp
  | cons x xs ih => exact fun init => le_trans (le_max_left _ _) (ih _)

/-- The derived card width is positive. -/
theorem width_pos (text : String) : 0 < (getEventCardDimensions text).width := by
  show 0 < Q.ceil (Q.add
    (Q.min (Q.ofInt (layoutMaxWidth - layoutPadding * 2))
      (Q.max (Q.ofInt (layoutMinWidth - layoutPadding * 2))
        (Q.mul (Q.ofInt ((List.map getTextUnits (splitLines text.data)).foldl Max.max 1))
          (Q.mul (Q.ofInt layoutFontSize) ⟨52, 100⟩))))
    (Q.ofInt (layoutPadding * 2)))
  set w := (List.map getTextUnits (splitLines text.data)).foldl Max.max 1 with hw
  have hw1 : 1 ≤ w := foldl_max_ge _ 1
  have hpos : ∀ q : Q, 0 < q.num → 0 < q.den →
      0 < Q.ceil (Q.add q (Q.ofInt (layoutPadding * 2))) := by
    intro q hn hd
    apply Q.ceil_pos <;> simp [Q.add, Q.ofInt, layoutPadding] <;> nlinarith
  rcases Q.min_cases (Q.ofInt (layoutMaxWidth - layoutPadding * 2))
      (Q.max (Q.ofInt (layoutMinWidth - layoutPadding * 2))
        (Q.mul (Q.ofInt w) (Q.mul (Q.ofInt layoutFontSize) ⟨52, 100⟩))) with hmin | hmin <;>
    rw [hmin]
  · exact hpos _ (by decide) (by decide)
  · rcases Q.max_cases (Q.ofInt (layoutMinWidth - layoutPadding * 2))
        (Q.mul (Q.ofInt w) (Q.mul (Q.ofInt layoutFontSize) ⟨52, 100⟩)) with hmax | hmax <;>
      rw [hmax]
    · exact hpos _ (by decide) (by decide)
    · exact hpos _ (by simp [Q.mul, Q.ofInt, layoutFontSize]; nlinarith) (by simp [Q.mul, Q.ofInt])

/-- The derived card height is positive. -/
theorem height_pos (text : String) : 0 < (getEventCardDimensions text).height := by
  unfold getEventCardDimensions
  simp only []
  have : (0 : ℤ) < layoutMinHeight := by decide
  exact lt_of_lt_of_le this (le_max_left _ _)

/-- A genuine position's card rectangle is not separated from itself: the
no-overlap relation is irreflexive on real cards. -/
theorem isSeparated_self_false {p : Pos} (hp : posHasPosDen p) (name : String) :
    isSeparated (getBounds p name) (getBounds p name) = false := by
  obtain ⟨hx, hy⟩ := hp
  have hwidth := width_pos name
  have hheight := height_pos name
  unfold getBounds isSeparated
  simp only [Q.add, Q.ofInt, Bool.or_eq_false_iff, Q.le_false_iff]
  refine ⟨⟨⟨?_, ?_⟩, ?_⟩, ?_⟩ <;>
    nlinarith [mul_pos hwidth (mul_pos hx hx), mul_pos hheight (mul_pos hy hy)]

/-! ## Characterizations of the overlap guard and the mutation operations -/

/-- The guard without exclusion reports no conflict iff the candidate
rectangle is separated from every card's live rectangle. -/
theorem hasOverlappingEvent_none_iff (b : Board) (p : Pos) (name : String) :
    b.hasOverlappingEvent p none name = false ↔
      ∀ e ∈ b.events, isSeparated (getBounds p name) (getBounds e.position e.name) = true := by
  unfold Board.hasOverlappingEvent
  rw [List.any_eq_false]
  constructor
  · intro h e he
    have := h e he
    simpa using this
  · intro h e he
    simpa using h e he

/-- The guard with exclusion reports no conflict iff the candidate rectangle
is separated from every other card's live rectangle. -/
theorem hasOverlappingEvent_some_iff (b : Board) (p : Pos) (ex : String) (name : String) :
    b.hasOverlappingEvent p (some ex) name = false ↔
      ∀ e ∈ b.events, e.id ≠ ex →
        isSeparated (getBounds p name) (getBounds e.position e.name) = true := by
  unfold Board.hasOverlappingEvent
  rw [List.any_eq_false]
  constructor
  · intro h e he hne
    have := h e he
    simp only [beq_iff_eq] at this
    rw [if_neg hne] at this
    simpa using this
  · intro h e he
    simp only [beq_iff_eq]
    by_cases hid : e.id = ex
    · simp [hid]
    · rw [if_neg hid]
      simpa using h e he hid

/-- With unique ids, `find?` locates exactly the member carrying the id. -/
theorem find?_eq_some_of_nodup (l : List Event) (e : Event) (id : String)
    (hnd : (l.map Event.id).Nodup) (he : e ∈ l) (hid : e.id = id) :
    l.find? (fun x => x.id == id) = some e := by
  induction l with
  | nil => simp at he
  | cons y rest ih =>
    simp only [List.map_cons, List.nodup_cons] at hnd
    by_cases hy : y.id = id
    · have : e = y := by
        rcases List.mem_cons.mp he with rfl | hmem
        · rfl
        · refine absurd ?_ hnd.1
          rw [hy, ← hid]
          exact List.mem_map_of_mem Event.id hmem
      subst this
      simp [List.find?_cons, hy]
    · have hne : e ≠ y := fun hey => hy (hey ▸ hid)
      have hmem : e ∈ rest := (List.mem_cons.mp he).resolve_left hne
      have : (y.id == id) = false := beq_eq_false_iff_ne.mpr hy
      simp [List.find?_cons, this, ih hnd.2 hmem]

/-- `moveEvent` does exactly one of four things: NotFound, Conflict (checked
first), OutOfBounds (checked second), or the in-place update. -/
theorem moveEvent_cases (b : Board) (eventId : String) (p : Pos) (now : ℕ) :
    (b.events.find? (fun e => e.id == eventId) = none ∧
      b.moveEvent eventId p now = (b, some "Event not found on board"))
    ∨ (∃ ev, b.events.find? (fun e => e.id == eventId) = some ev ∧
        ((b.hasOverlappingEvent p (some eventId) ev.name = true ∧
           b.moveEvent eventId p now = (b, some "Event position overlaps with existing event"))
         ∨ (b.hasOverlappingEvent p (some eventId) ev.name = false ∧ p.isWithinBounds = false ∧
             b.moveEvent eventId p now = (b, some "Position out of bounds"))
         ∨ (b.hasOverlappingEvent p (some eventId) ev.name = false ∧ p.isWithinBounds = true ∧
             b.moveEvent eventId p now =
               ({ b with events := b.events.map fun e =>
                   if e.id == eventId then { e with position := p, lastModified := now } else e },
                 none)))) := by
  unfold Board.moveEvent
  cases hf : b.events.find? (fun e => e.id == eventId) with
  | none => exact Or.inl ⟨rfl, rfl⟩
  | some ev =>
    refine Or.inr ⟨ev, rfl, ?_⟩
    cases ho : b.hasOverlappingEvent p (some eventId) ev.name
    · cases hw : p.isWithinBounds
      · exact Or.inr (Or.inl ⟨rfl, rfl, by simp [ho, hw]⟩)
      · exact Or.inr (Or.inr ⟨rfl, rfl, by simp [ho, hw]⟩)
    · exact Or.inl ⟨rfl, by simp [ho]⟩

/-- `addEvent` does exactly one of three things: duplicate Conflict, overlap
Conflict, or the append. -/
theorem addEvent_cases (b : Board) (event : Event) :
    (b.events.any (fun e => e.id == event.id) = true ∧
      b.addEvent event = (b, some "Event already exists on board"))
    ∨ (b.events.any (fun e => e.id == event.id) = false ∧
        b.hasOverlappingEvent event.position none event.name = true ∧
        b.addEvent event = (b, some "Event position overlaps with existing event"))
    ∨ (b.events.any (fun e => e.id == event.id) = false ∧
        b.hasOverlappingEvent event.position none event.name = false ∧
        b.addEvent event = ({ b with events := b.events ++ [event] }, none)) := by
  unfold Board.addEvent
  cases hd : b.events.any (fun e => e.id == event.id)
  · cases ho : b.hasOverlappingEvent event.position none event.name
    · exact Or.inr (Or.inr ⟨rfl, rfl, by simp [hd, ho]⟩)
    · exact Or.inr (Or.inl ⟨rfl, rfl, by simp [hd, ho]⟩)
  · exact Or.inl ⟨rfl, by simp [hd]⟩

/-! ## C9: `detectAggregates` on an empty board -/

/-- C9: on a board containing zero cards, `detectAggregates` returns the
empty list and replaces the board's stored aggregate list with the empty
list, discarding any previously detected aggregates. -/
theorem detectAggregates_empty (b : Board) (gen : ℕ → String) (now : ℕ)
    (h : b.events = []) :
    b.detectAggregates gen now = ({ b with aggregates := [] }, []) := by
  simp [Board.detectAggregates, Board.getAllEvents, h]

/-- Witness for C9 at a concrete board that carries a stale aggregate. -/
theorem detectAggregates_empty_witness :
    (⟨"board", [], [⟨"agg", "Old", [cardA], 0, 0⟩], []⟩ : Board).events = [] ∧
      (⟨"board", [], [⟨"agg", "Old", [cardA], 0, 0⟩], []⟩ : Board).detectAggregates
          (fun _ => "generated") 7 =
        ({ (⟨"board", [], [⟨"agg", "Old", [cardA], 0, 0⟩], []⟩ : Board) with aggregates := [] },
          []) :=
  ⟨rfl, detectAggregates_empty _ _ _ rfl⟩

/-! ## C2: the bounds invariant -/

/-- C2 counterexample: `addEvent` performs no board-extent check, so adding a
card at (20000, 0) — a position the `Position` constructor accepts but that
lies outside the 10000-wide board extent — succeeds. -/
theorem addEvent_ignores_bounds :
    positionCtorOk farCard.position = true ∧
    farCard.position.isWithinBounds = false ∧
    (Board.create "board").addEvent farCard =
      ({ Board.create "board" with events := [farCard] }, none) := by
  refine ⟨by decide, by decide, ?_⟩
  decide

/-- C2 amended: a successful `moveEvent` leaves the card within
[0,10000]×[0,10000] (the lower bounds come from the `Position` constructor,
the upper bounds from `Event.moveTo`); `addEvent` checks no bounds at all
(see `addEvent_ignores_bounds`). -/
theorem moveEvent_ok_bounds (b : Board) (eventId : String) (p : Pos) (now : ℕ) (b2 : Board)
    (hp : positionCtorOk p = true)
    (h : b.moveEvent eventId p now = (b2, none)) :
    Q.le (Q.ofInt 0) p.x = true ∧ Q.le p.x (Q.ofInt boardMax) = true ∧
      Q.le (Q.ofInt 0) p.y = true ∧ Q.le p.y (Q.ofInt boardMax) = true := by
  rcases moveEvent_cases b eventId p now with ⟨_, hr⟩ | ⟨ev, _, hcase⟩
  · rw [h] at hr
    simp at hr
  · have hw : p.isWithinBounds = true := by
      rcases hcase with ⟨_, hr⟩ | ⟨_, _, hr⟩ | ⟨_, hw, _⟩
      · rw [h] at hr; simp at hr
      · rw [h] at hr; simp at hr
      · exact hw
    simp only [positionCtorOk, Bool.and_eq_true, Bool.not_eq_true'] at hp
    simp only [Pos.isWithinBounds, Bool.and_eq_true] at hw
    refine ⟨?_, hw.1, ?_, hw.2⟩ <;>
      simp only [Q.le, Q.lt, Q.ofInt, decide_eq_true_eq, decide_eq_false_iff_not] at * <;>
      omega

/-- Witness for C2: a concrete successful move, with the bounds conclusion. -/
theorem moveEvent_ok_bounds_witness :
    positionCtorOk ⟨Q.ofInt 500, Q.ofInt 600⟩ = true ∧
    (⟨"board", [cardB], [], []⟩ : Board).moveEvent "idb" ⟨Q.ofInt 500, Q.ofInt 600⟩ 3 =
      (⟨"board", [⟨"idb", "B", .domainEvent, ⟨Q.ofInt 500, Q.ofInt 600⟩, none, 0, 3⟩], [], []⟩,
        none) ∧
    (Q.le (Q.ofInt 0) (Q.ofInt 500 : Q) = true ∧
      Q.le (Q.ofInt 500 : Q) (Q.ofInt boardMax) = true ∧
      Q.le (Q.ofInt 0) (Q.ofInt 600 : Q) = true ∧
      Q.le (Q.ofInt 600 : Q) (Q.ofInt boardMax) = true) :=
  ⟨by decide, by decide,
    moveEvent_ok_bounds ⟨"board", [cardB], [], []⟩ "idb" ⟨Q.ofInt 500, Q.ofInt 600⟩ 3
      ⟨"board", [⟨"idb", "B", .domainEvent, ⟨Q.ofInt 500, Q.ofInt 600⟩, none, 0, 3⟩], [], []⟩
      (by decide) (by decide)⟩

/-! ## C3: the `moveEvent` error contract -/

/-- C3 counterexample: the overlap check runs before the bounds check, so a
move of card "idb" to (10001, 100) — a present id at a position outside the
board extent that also collides with card "ida" — fails with the Conflict
error, not the OutOfBounds error the claim requires for every out-of-extent
target. -/
theorem moveEvent_conflict_shadows_oob :
    boardAB.events.any (fun e => e.id == "idb") = true
    ∧ (⟨Q.ofInt 10001, Q.ofInt 100⟩ : Pos).isWithinBounds = false
    ∧ boardAB.moveEvent "idb" ⟨Q.ofInt 10001, Q.ofInt 100⟩ 1 =
        (boardAB, some "Event position overlaps with existing event")
    ∧ "Event position overlaps with existing event" ≠ "Position out of bounds" := by
  refine ⟨by decide, by decide, by decide, by decide⟩

/-- C3 amended: `moveEvent` fails with NotFound when the id is absent; when
the id is present it fails with Conflict when the overlap guard (live name,
new position, excluding itself) reports an intersection, and otherwise with
OutOfBounds when the new position is outside the board extent — the overlap
check precedes the bounds check; every failure leaves the board exactly
unchanged. -/
theorem moveEvent_error_contract (b : Board) (eventId : String) (p : Pos) (now : ℕ)
    (hnd : (b.events.map Event.id).Nodup) :
    ((∀ e ∈ b.events, e.id ≠ eventId) →
        b.moveEvent eventId p now = (b, some "Event not found on board"))
    ∧ (∀ e ∈ b.events, e.id = eventId →
        (b.hasOverlappingEvent p (some eventId) e.name = true →
          b.moveEvent eventId p now = (b, some "Event position overlaps with existing event"))
        ∧ (b.hasOverlappingEvent p (some eventId) e.name = false →
            p.isWithinBounds = false →
              b.moveEvent eventId p now = (b, some "Position out of bounds")))
    ∧ (∀ b2 msg, b.moveEvent eventId p now = (b2, some msg) → b2 = b) := by
  refine ⟨?_, ?_, ?_⟩
  · intro habs
    have hf : b.events.find? (fun e => e.id == eventId) = none := by
      rw [List.find?_eq_none]
      intro e he
      simpa using habs e he
    unfold Board.moveEvent
    rw [hf]
  · intro e he hid
    have hf : b.events.find? (fun x => x.id == eventId) = some e :=
      find?_eq_some_of_nodup b.events e eventId hnd he hid
    constructor
    · intro ho
      unfold Board.moveEvent
      rw [hf]
      simp [ho]
    · intro ho hw
      unfold Board.moveEvent
      rw [hf]
      simp [ho, hw]
  · intro b2 msg hr
    rcases moveEvent_cases b eventId p now with ⟨_, hc⟩ | ⟨ev, _, hcase⟩
    · rw [hr] at hc
      exact (Prod.mk.injEq .. ▸ hc).1
    · rcases hcase with ⟨_, hc⟩ | ⟨_, _, hc⟩ | ⟨_, _, hc⟩ <;> rw [hr] at hc
      · exact (Prod.mk.injEq .. ▸ hc).1
      · exact (Prod.mk.injEq .. ▸ hc).1
      · simp at hc

/-- Witness for C3 at the concrete two-card board. -/
theorem moveEvent_error_contract_witness :
    ((boardAB.events.map Event.id).Nodup) ∧
    (((∀ e ∈ boardAB.events, e.id ≠ "missing") →
        boardAB.moveEvent "missing" ⟨Q.ofInt 10001, Q.ofInt 100⟩ 1 =
          (boardAB, some "Event not found on board"))
    ∧ (∀ e ∈ boardAB.events, e.id = "missing" →
        (boardAB.hasOverlappingEvent ⟨Q.ofInt 10001, Q.ofInt 100⟩ (some "missing") e.name = true →
          boardAB.moveEvent "missing" ⟨Q.ofInt 10001, Q.ofInt 100⟩ 1 =
            (boardAB, some "Event position overlaps with existing event"))
        ∧ (boardAB.hasOverlappingEvent ⟨Q.ofInt 10001, Q.ofInt 100⟩ (some "missing") e.name = false →
            (⟨Q.ofInt 10001, Q.ofInt 100⟩ : Pos).isWithinBounds = false →
              boardAB.moveEvent "missing" ⟨Q.ofInt 10001, Q.ofInt 100⟩ 1 =
                (boardAB, some "Position out of bounds")))
    ∧ (∀ b2 msg, boardAB.moveEvent "missing" ⟨Q.ofInt 10001, Q.ofInt 100⟩ 1 = (b2, some msg) →
        b2 = boardAB)) :=
  ⟨by decide, moveEvent_error_contract boardAB "missing" ⟨Q.ofInt 10001, Q.ofInt 100⟩ 1 (by decide)⟩

/-! ## C1: the no-overlap invariant -/

/-- A successful `addEvent` preserves the board invariant: the new card was
checked against every existing card's live rectangle. -/
theorem addEvent_ok_wf {b : Board} {e : Event} {b2 : Board}
    (hwf : boardWf b) (he : posHasPosDen e.position)
    (h : b.addEvent e = (b2, none)) : boardWf b2 := by
  obtain ⟨hnd, hden, hpair⟩ := hwf
  rcases addEvent_cases b e with ⟨_, hr⟩ | ⟨_, _, hr⟩ | ⟨hdup, hov, hr⟩
  · rw [h] at hr; simp at hr
  · rw [h] at hr; simp at hr
  · rw [h] at hr
    obtain ⟨hb2, -⟩ := Prod.mk.injEq .. ▸ hr
    subst hb2
    have hsep := (hasOverlappingEvent_none_iff b e.position e.name).mp hov
    rw [List.any_eq_false] at hdup
    refine ⟨?_, ?_, ?_⟩
    · simp only [List.map_append, List.map_cons, List.map_nil]
      rw [List.nodup_append]
      refine ⟨hnd, List.nodup_singleton _, ?_⟩
      intro x hx
      simp only [List.mem_singleton]
      rcases List.mem_map.mp hx with ⟨a, ha, rfl⟩
      intro hax
      exact hdup a ha (by simp [hax])
    · intro x hx
      rcases List.mem_append.mp hx with hx | hx
      · exact hden x hx
      · rw [List.mem_singleton.mp hx]
        exact he
    · unfold noOverlapBoard
      rw [List.pairwise_append]
      refine ⟨hpair, List.pairwise_singleton _ _, ?_⟩
      intro a ha x hx
      rw [List.mem_singleton.mp hx]
      exact eventsSeparated_symm (hsep a ha)

/-- A successful `moveEvent` preserves the board invariant: the moved card's
new rectangle was checked against every other card's live rectangle, and no
other card changed. -/
theorem moveEvent_ok_wf {b : Board} {eventId : String} {p : Pos} {now : ℕ} {b2 : Board}
    (hwf : boardWf b) (hp : posHasPosDen p)
    (h : b.moveEvent eventId p now = (b2, none)) : boardWf b2 := by
  obtain ⟨hnd, hden, hpair⟩ := hwf
  rcases moveEvent_cases b eventId p now with ⟨_, hr⟩ | ⟨ev, hf, hcase⟩
  · rw [h] at hr; simp at hr
  rcases hcase with ⟨_, hr⟩ | ⟨_, _, hr⟩ | ⟨hov, hw, hr⟩
  · rw [h] at hr; simp at hr
  · rw [h] at hr; simp at hr
  rw [h] at hr
  obtain ⟨hb2, -⟩ := Prod.mk.injEq .. ▸ hr
  subst hb2
  have hevmem : ev ∈ b.events := List.mem_of_find?_eq_some hf
  have hevid : ev.id = eventId := by simpa using List.find?_some hf
  have hinj : ∀ x ∈ b.events, ∀ y ∈ b.events, x.id = y.id → x = y := by
    intro x hx y hy hxy
    exact List.inj_on_of_nodup_map hnd hx hy hxy
  have hsep := (hasOverlappingEvent_some_iff b p eventId ev.name).mp hov
  refine ⟨?_, ?_, ?_⟩
  · rw [List.map_map]
    have hcomp : (Event.id ∘ fun e =>
        if e.id == eventId then { e with position := p, lastModified := now } else e) =
        Event.id := by
      funext x
      by_cases hc : x.id = eventId <;> simp [Function.comp, hc]
    rw [hcomp]
    exact hnd
  · intro x hx
    rcases List.mem_map.mp hx with ⟨a, ha, rfl⟩
    cases hc : (a.id == eventId)
    · rw [if_neg (by simp)]
      exact hden a ha
    · rw [if_pos rfl]
      exact hp
  · unfold noOverlapBoard
    rw [List.pairwise_map]
    refine List.Pairwise.imp_of_mem ?_ hpair
    intro a c ha hc hsepac
    dsimp only
    cases hba : (a.id == eventId) <;> cases hbc : (c.id == eventId)
    · unfold eventsSeparated rectOfEvent
      rw [if_neg (by simp), if_neg (by simp)]
      exact hsepac
    · have hcc : c.id = eventId := by simpa using hbc
      have hce : c = ev := hinj c hc ev hevmem (hcc.trans hevid.symm)
      unfold eventsSeparated rectOfEvent
      rw [if_neg (by simp), if_pos rfl]
      apply @eventsSeparated_symm { c with position := p, lastModified := now }
      unfold eventsSeparated rectOfEvent
      have hres := hsep a ha (by simpa using hba)
      show isSeparated (getBounds p c.name) (getBounds a.position a.name) = true
      rw [hce]
      exact hres
    · have hca : a.id = eventId := by simpa using hba
      have hae : a = ev := hinj a ha ev hevmem (hca.trans hevid.symm)
      unfold eventsSeparated rectOfEvent
      rw [if_pos rfl, if_neg (by simp)]
      show isSeparated (getBounds p a.name) (getBounds c.position c.name) = true
      rw [hae]
      exact hsep c hc (by simpa using hbc)
    · have hca : a.id = eventId := by simpa using hba
      have hcc : c.id = eventId := by simpa using hbc
      have : a = c := hinj a ha c hc (hca.trans hcc.symm)
      subst this
      exfalso
      have hself := isSeparated_self_false (hden a ha) a.name
      unfold eventsSeparated rectOfEvent at hsepac
      rw [hsepac] at hself
      exact Bool.noConfusion hself

/-- Running a successful operation sequence from an invariant-satisfying
board lands on an invariant-satisfying board. -/
theorem runOps_wf (ops : List BoardOp) (b : Board) (hwf : boardWf b)
    (hops : ∀ op ∈ ops, opWellFormed op) (b2 : Board)
    (h : runOps b ops = (b2, true)) : boardWf b2 := by
  induction ops generalizing b with
  | nil =>
    simp only [runOps] at h
    obtain ⟨hb, -⟩ := Prod.mk.injEq .. ▸ h
    exact hb ▸ hwf
  | cons op rest ih =>
    simp only [runOps] at h
    cases hstep : applyOp b op with
    | mk b1 err =>
      rw [hstep] at h
      cases err with
      | none =>
        refine ih b1 ?_ (fun o ho => hops o (List.mem_cons_of_mem op ho)) h
        cases op with
        | add e =>
          have hop := hops (.add e) (List.mem_cons_self _ _)
          exact addEvent_ok_wf hwf (by simpa [opWellFormed] using hop) hstep
        | move id pos now =>
          have hop := hops (.move id pos now) (List.mem_cons_self _ _)
          exact moveEvent_ok_wf hwf (by simpa [opWellFormed] using hop) hstep
      | some msg =>
        obtain ⟨-, hfalse⟩ := Prod.mk.injEq .. ▸ h
        exact absurd hfalse Bool.false_ne_true

/-- C1: for every sequence of `addEvent`/`moveEvent` operations that all
succeed starting from an empty board, the derived rectangles of every pair
of distinct cards (recomputed from each card's live name via
`getEventCardDimensions` and its position) are pairwise non-intersecting,
touching edges allowed.  Since this holds for all successful sequences, it
holds at every intermediate state of a longer run (each prefix is itself a
successful sequence). -/
theorem no_overlap_invariant (ops : List BoardOp) (boardId : String) (b2 : Board)
    (hops : ∀ op ∈ ops, opWellFormed op)
    (h : runOps (Board.create boardId) ops = (b2, true)) :
    b2.events.Pairwise eventsSeparated :=
  (runOps_wf ops (Board.create boardId)
    (by refine ⟨?_, ?_, ?_⟩ <;> simp [Board.create, noOverlapBoard]) hops b2 h).2.2

/-- Witness for C1: a successful concrete run of two adds and one move. -/
theorem no_overlap_invariant_witness :
    (∀ op ∈ opsW, opWellFormed op) ∧
    runOps (Board.create "board") opsW = (finalW, true) ∧
    finalW.events.Pairwise eventsSeparated :=
  ⟨by
    intro op hop
    simp only [opsW, List.mem_cons, List.not_mem_nil, or_false] at hop
    rcases hop with rfl | rfl | rfl <;> exact ⟨by decide, by decide⟩,
   by decide,
   no_overlap_invariant opsW "board" finalW
    (by
      intro op hop
      simp only [opsW, List.mem_cons, List.not_mem_nil, or_false] at hop
      rcases hop with rfl | rfl | rfl <;> exact ⟨by decide, by decide⟩)
    (by decide)⟩

/-! ## C5 and C4: cluster detection -/

/-- The squared-distance comparison is symmetric. -/
theorem distLe_symm (p q : Pos) (d : Q) : p.distLe q d = q.distLe p d := by
  have hsq : ∀ a b : Q, Q.mul (Q.sub a b) (Q.sub a b) = Q.mul (Q.sub b a) (Q.sub b a) := by
    intro a b
    simp only [Q.sub, Q.mul, Q.mk.injEq]
    constructor <;> ring
  unfold Pos.distLe
  dsimp only
  rw [hsq p.x q.x, hsq p.y q.y]

/-- `nearEvents` is symmetric. -/
theorem nearEvents_symm {u v : Event} (h : nearEvents u v) : nearEvents v u := by
  unfold nearEvents at *
  rw [distLe_symm]
  exact h

/-- Appending one suitably linked card keeps a cluster linked. -/
theorem linked_append_singleton {cl : List Event} {x : Event} (hl : linkedCluster cl)
    (hx : cl = [] ∨ ∃ y ∈ cl, y ≠ x ∧ nearEvents y x) : linkedCluster (cl ++ [x]) := by
  intro pre z post heq
  rcases List.append_eq_append_iff.mp heq with ⟨a2, hpre, hsing⟩ | ⟨c2, hcl2, hzpost⟩
  · cases a2 with
    | nil =>
      obtain ⟨h1, h2⟩ : x = z ∧ [] = post := by simpa using hsing
      subst h1
      subst h2
      rw [List.append_nil] at hpre
      subst hpre
      exact hx
    | cons a a3 =>
      exfalso
      have := congrArg List.length hsing
      simp at this
  · cases c2 with
    | nil =>
      obtain ⟨h1, h2⟩ : z = x ∧ post = [] := by simpa using hzpost
      subst h1
      subst h2
      rw [List.append_nil] at hcl2
      subst hcl2
      exact hx
    | cons c3 c4 =>
      obtain ⟨h1, h2⟩ : z = c3 ∧ post = c4 ++ [x] := by simpa using hzpost
      subst h1
      exact hl pre z c4 hcl2

/-- The complete behavior of the BFS worklist loop (`findCluster`): it
appends a block `Δ` of newly visited cards to the cluster (members of the
board, fresh distinct ids, each linked to an earlier cluster member), pushes
exactly `Δ`'s ids onto the visited list, and on termination every in-radius
neighbor of a cluster member has been visited. -/
theorem findClusterLoop_spec (all queue : List Event) (visited : List String)
    (cluster : List Event) :
    (∀ q ∈ queue, q ∈ all) →
    (∀ c ∈ cluster, c ∈ all) →
    (∀ c ∈ cluster, c.id ∈ visited) →
    linkedCluster cluster →
    (∀ q ∈ queue, cluster = [] ∨ ∃ c ∈ cluster, nearEvents c q) →
    (cluster = [] → queue.length ≤ 1) →
    (∀ c ∈ cluster, ∀ n ∈ all, nearEvents c n → n.id ∈ visited ∨ n ∈ queue) →
    ∃ Δ : List Event,
      (findClusterLoop all queue visited cluster).1 = cluster ++ Δ ∧
      (findClusterLoop all queue visited cluster).2 = (Δ.map Event.id).reverse ++ visited ∧
      (∀ c ∈ Δ, c ∈ all) ∧
      (Δ.map Event.id).Nodup ∧
      (∀ s ∈ Δ.map Event.id, s ∉ visited) ∧
      linkedCluster (cluster ++ Δ) ∧
      (∀ c ∈ cluster ++ Δ, ∀ n ∈ all, nearEvents c n →
        n.id ∈ (findClusterLoop all queue visited cluster).2) ∧
      (∀ q ∈ queue, q.id ∈ (findClusterLoop all queue visited cluster).2) := by
  induction queue, visited, cluster using findClusterLoop.induct all with
  | case1 visited cluster =>
    intro hq hcl hclv hlink hwit hempty hclose
    refine ⟨[], by simp [findClusterLoop], by simp [findClusterLoop], by simp, by simp,
      by simp, by simpa using hlink, ?_, by simp⟩
    intro c hc n hn hnear
    rcases hclose c (by simpa using hc) n hn hnear with h | h
    · simpa [findClusterLoop] using h
    · simp at h
  | case2 current rest visited cluster hvis ih =>
    intro hq hcl hclv hlink hwit hempty hclose
    have heq : findClusterLoop all (current :: rest) visited cluster
        = findClusterLoop all rest visited cluster := by
      simp only [findClusterLoop]
      rw [dif_pos hvis]
    rw [heq]
    obtain ⟨Δ, h1, h2, h3, h4, h5, h6, h7, h8⟩ :=
      ih (fun q hqm => hq q (List.mem_cons_of_mem _ hqm)) hcl hclv hlink
        (fun q hqm => hwit q (List.mem_cons_of_mem _ hqm))
        (fun hc => by
          have h2 := hempty hc
          simp only [List.length_cons] at h2
          omega)
        (by
          intro c hc n hn hnear
          rcases hclose c hc n hn hnear with h | h
          · exact Or.inl h
          · rcases List.mem_cons.mp h with rfl | h2
            · exact Or.inl (List.elem_iff.mp hvis)
            · exact Or.inr h2)
    refine ⟨Δ, h1, h2, h3, h4, h5, h6, h7, ?_⟩
    intro q hqm
    rcases List.mem_cons.mp hqm with rfl | h
    · rw [h2]
      exact List.mem_append_right _ (List.elem_iff.mp hvis)
    · exact h8 q h
  | case3 current rest visited cluster hvis ih =>
    intro hq hcl hclv hlink hwit hempty hclose
    have hcur : current ∈ all := hq current (List.mem_cons_self _ _)
    have hcurnv : current.id ∉ visited := fun hv => hvis (List.elem_iff.mpr hv)
    have heq : findClusterLoop all (current :: rest) visited cluster
        = findClusterLoop all
            (rest ++ all.filter fun neighbor =>
              !((current.id :: visited).contains neighbor.id)
                && current.position.distLe neighbor.position (Q.ofInt clusteringDistance))
            (current.id :: visited) (cluster ++ [current]) := by
      simp only [findClusterLoop]
      rw [dif_neg hvis]
    rw [heq]
    -- transported hypotheses for the recursive state
    have hpushmem : ∀ q ∈ (all.filter fun neighbor =>
        !((current.id :: visited).contains neighbor.id)
          && current.position.distLe neighbor.position (Q.ofInt clusteringDistance)),
        q ∈ all ∧ q.id ∉ current.id :: visited ∧ nearEvents current q := by
      intro q hqm
      obtain ⟨hqa, hcond⟩ := List.mem_filter.mp hqm
      rw [Bool.and_eq_true, Bool.not_eq_true'] at hcond
      refine ⟨hqa, fun hmem => ?_, hcond.2⟩
      exact Bool.noConfusion ((List.elem_iff.mpr hmem).symm.trans hcond.1)
    have hwitcur : cluster = [] ∨ ∃ y ∈ cluster, y ≠ current ∧ nearEvents y current := by
      rcases hwit current (List.mem_cons_self _ _) with h | ⟨c, hc, hnear⟩
      · exact Or.inl h
      · refine Or.inr ⟨c, hc, fun hce => ?_, hnear⟩
        exact hcurnv (hce ▸ hclv c hc)
    obtain ⟨Δ2, h1, h2, h3, h4, h5, h6, h7, h8⟩ := ih
      (by
        intro q hqm
        rcases List.mem_append.mp hqm with h | h
        · exact hq q (List.mem_cons_of_mem _ h)
        · exact (hpushmem q h).1)
      (by
        intro c hc
        rcases List.mem_append.mp hc with h | h
        · exact hcl c h
        · rw [List.mem_singleton.mp h]
          exact hcur)
      (by
        intro c hc
        rcases List.mem_append.mp hc with h | h
        · exact List.mem_cons_of_mem _ (hclv c h)
        · rw [List.mem_singleton.mp h]
          exact List.mem_cons_self _ _)
      (linked_append_singleton hlink hwitcur)
      (by
        intro q hqm
        rcases List.mem_append.mp hqm with h | h
        · rcases hwit q (List.mem_cons_of_mem _ h) with hc | ⟨c, hc, hnear⟩
          · exfalso
            have := hempty hc
            subst hc
            simp at this
            rw [this] at h
            simp at h
          · exact Or.inr ⟨c, List.mem_append_left _ hc, hnear⟩
        · exact Or.inr ⟨current, List.mem_append_right _ (List.mem_singleton_self _),
            (hpushmem q h).2.2⟩)
      (by simp)
      (by
        intro c hc n hn hnear
        rcases List.mem_append.mp hc with h | h
        · rcases hclose c h n hn hnear with hv | hmem
          · exact Or.inl (List.mem_cons_of_mem _ hv)
          · rcases List.mem_cons.mp hmem with rfl | h2
            · exact Or.inl (List.mem_cons_self _ _)
            · exact Or.inr (List.mem_append_left _ h2)
        · by_cases hnv : n.id ∈ current.id :: visited
          · exact Or.inl hnv
          · refine Or.inr (List.mem_append_right _ ?_)
            rw [List.mem_filter]
            refine ⟨hn, ?_⟩
            rw [Bool.and_eq_true, Bool.not_eq_true']
            constructor
            · rw [Bool.eq_false_iff]
              intro hcont
              exact hnv (List.elem_iff.mp hcont)
            · rw [List.mem_singleton.mp h] at hnear
              exact hnear)
    refine ⟨current :: Δ2, ?_, ?_, ?_, ?_, ?_, ?_, ?_, ?_⟩
    · rw [h1, List.append_assoc]
      rfl
    · rw [h2]
      simp
    · intro c hc
      rcases List.mem_cons.mp hc with rfl | h
      · exact hcur
      · exact h3 c h
    · simp only [List.map_cons, List.nodup_cons]
      refine ⟨fun hmem => ?_, h4⟩
      exact (h5 current.id hmem) (List.mem_cons_self _ _)
    · intro s hs
      simp only [List.map_cons, List.mem_cons] at hs
      rcases hs with rfl | h
      · exact hcurnv
      · intro hv
        exact h5 s h (List.mem_cons_of_mem _ hv)
    · rw [show cluster ++ current :: Δ2 = (cluster ++ [current]) ++ Δ2 by simp]
      exact h6
    · intro c hc n hn hnear
      rw [h2]
      have hc2 : c ∈ (cluster ++ [current]) ++ Δ2 := by
        rw [List.append_assoc]
        simpa using hc
      have := h7 c hc2 n hn hnear
      rw [h2] at this
      simpa using this
    · intro q hqm
      rw [h2]
      rcases List.mem_cons.mp hqm with rfl | h
      · simp
      · have := h8 q (List.mem_append_left _ h)
        rw [h2] at this
        simpa using this

/-- The empty cluster is trivially linked. -/
theorem linkedCluster_nil : linkedCluster ([] : List Event) := by
  intro pre x post h
  exact absurd h (by simp)

/-- Splitting a list extended by one element: the designated position is
either the new last element or lies inside the original list. -/
theorem append_singleton_split {α : Type} {l : List α} {x : α} {pre post : List α} {z : α}
    (h : l ++ [x] = pre ++ z :: post) :
    (pre = l ∧ z = x ∧ post = []) ∨
      ∃ post2, l = pre ++ z :: post2 ∧ post = post2 ++ [x] := by
  rcases List.append_eq_append_iff.mp h with ⟨a2, hpre, hsing⟩ | ⟨c2, hl, hzpost⟩
  · cases a2 with
    | nil =>
      obtain ⟨h1, h2⟩ : x = z ∧ [] = post := by simpa using hsing
      rw [List.append_nil] at hpre
      exact Or.inl ⟨hpre, h1.symm, h2.symm⟩
    | cons a a3 =>
      exfalso
      have := congrArg List.length hsing
      simp at this
  · cases c2 with
    | nil =>
      obtain ⟨h1, h2⟩ : z = x ∧ post = [] := by simpa using hzpost
      rw [List.append_nil] at hl
      exact Or.inl ⟨hl.symm, h1, h2⟩
    | cons c3 c4 =>
      obtain ⟨h1, h2⟩ : z = c3 ∧ post = c4 ++ [x] := by simpa using hzpost
      subst h1
      exact Or.inr ⟨c4, hl, h2⟩

/-- The complete behavior of the cluster-collection loop of
`detectAggregates`: it appends some block of nonempty, linked, mutually
id-disjoint clusters; the visited set is exactly the ids collected in the
clusters; every in-radius neighbor of a cluster member lies in that member's
cluster or an earlier one; and every card of the work list ends up in some
cluster. -/
theorem detectLoop_spec (all todo : List Event) (visited : List String)
    (clusters : List (List Event)) :
    (∀ t ∈ todo, t ∈ all) →
    (∀ s, s ∈ visited ↔ s ∈ clusters.flatten.map Event.id) →
    (clusters.flatten.map Event.id).Nodup →
    (∀ cl ∈ clusters, cl ≠ [] ∧ linkedCluster cl ∧ ∀ c ∈ cl, c ∈ all) →
    (∀ pre cl post, clusters = pre ++ cl :: post →
      ∀ c ∈ cl, ∀ n ∈ all, nearEvents c n →
        n.id ∈ (pre.flatten ++ cl).map Event.id) →
    ∃ Γ : List (List Event),
      (detectLoop all todo visited clusters).1 = clusters ++ Γ ∧
      (∀ s, s ∈ (detectLoop all todo visited clusters).2 ↔
        s ∈ ((clusters ++ Γ).flatten.map Event.id)) ∧
      (((clusters ++ Γ).flatten.map Event.id)).Nodup ∧
      (∀ cl ∈ clusters ++ Γ, cl ≠ [] ∧ linkedCluster cl ∧ ∀ c ∈ cl, c ∈ all) ∧
      (∀ pre cl post, clusters ++ Γ = pre ++ cl :: post →
        ∀ c ∈ cl, ∀ n ∈ all, nearEvents c n →
          n.id ∈ (pre.flatten ++ cl).map Event.id) ∧
      (∀ t ∈ todo, t.id ∈ ((clusters ++ Γ).flatten.map Event.id)) := by
  induction todo generalizing visited clusters with
  | nil =>
    intro ht hvis hnd hcl hord
    exact ⟨[], by simp [detectLoop], by simpa [detectLoop] using hvis, by simpa using hnd,
      by simpa using hcl, by simpa using hord, by simp⟩
  | cons e rest ih =>
    intro ht hvis hnd hcl hord
    cases hv : visited.contains e.id with
    | true =>
      have heq : detectLoop all (e :: rest) visited clusters
          = detectLoop all rest visited clusters := by
        simp only [detectLoop]
        rw [if_pos hv]
      rw [heq]
      obtain ⟨Γ, h1, h2, h3, h4, h5, h6⟩ :=
        ih visited clusters (fun t htm => ht t (List.mem_cons_of_mem _ htm))
          hvis hnd hcl hord
      refine ⟨Γ, h1, h2, h3, h4, h5, ?_⟩
      intro t htm
      rcases List.mem_cons.mp htm with rfl | hm
      · have hmem : t.id ∈ clusters.flatten.map Event.id := (hvis t.id).mp (List.elem_iff.mp hv)
        rw [List.flatten_append, List.map_append]
        exact List.mem_append_left _ hmem
      · exact h6 t hm
    | false =>
      have hnv : e.id ∉ visited := fun hmem =>
        Bool.noConfusion ((List.elem_iff.mpr hmem).symm.trans hv)
      obtain ⟨Δ, hr1, hr2, hr3, hr4, hr5, hr6, hr7, hr8⟩ :=
        findClusterLoop_spec all [e] visited []
          (by intro q hq; rw [List.mem_singleton.mp hq]; exact ht e (List.mem_cons_self _ _))
          (by simp) (by simp) linkedCluster_nil
          (fun q _ => Or.inl rfl) (fun _ => by simp) (by simp)
      rw [List.nil_append] at hr1 hr6
      have heidΔ : e.id ∈ Δ.map Event.id := by
        have := hr8 e (List.mem_singleton_self _)
        rw [hr2] at this
        rcases List.mem_append.mp this with h | h
        · exact List.mem_reverse.mp h
        · exact absurd h hnv
      have hΔne : Δ ≠ [] := by
        intro hnil
        rw [hnil] at heidΔ
        simp at heidΔ
      have hlen : (findClusterLoop all [e] visited []).1.length > 0 := by
        rw [hr1]
        exact List.length_pos.mpr hΔne
      have heq : detectLoop all (e :: rest) visited clusters
          = detectLoop all rest (findClusterLoop all [e] visited []).2
              (clusters ++ [(findClusterLoop all [e] visited []).1]) := by
        simp only [detectLoop]
        rw [if_neg (by simpa using hnv)]
        rw [if_pos hlen]
      rw [heq, hr1]
      have hvis2 : ∀ s, s ∈ (findClusterLoop all [e] visited []).2 ↔
          s ∈ (clusters ++ [Δ]).flatten.map Event.id := by
        intro s
        rw [hr2]
        simp only [List.mem_append, List.mem_reverse, List.flatten_append,
          List.flatten_cons, List.flatten_nil, List.append_nil, List.map_append, hvis s]
        tauto
      have hnd2 : ((clusters ++ [Δ]).flatten.map Event.id).Nodup := by
        rw [List.flatten_append, List.flatten_cons, List.flatten_nil, List.append_nil,
          List.map_append, List.nodup_append]
        exact ⟨hnd, hr4, fun a ha hain => hr5 a hain ((hvis a).mpr ha)⟩
      have hcl2 : ∀ cl ∈ clusters ++ [Δ], cl ≠ [] ∧ linkedCluster cl ∧ ∀ c ∈ cl, c ∈ all := by
        intro cl hclm
        rcases List.mem_append.mp hclm with h | h
        · exact hcl cl h
        · rw [List.mem_singleton.mp h]
          exact ⟨hΔne, hr6, hr3⟩
      have hord2 : ∀ pre cl post, clusters ++ [Δ] = pre ++ cl :: post →
          ∀ c ∈ cl, ∀ n ∈ all, nearEvents c n →
            n.id ∈ (pre.flatten ++ cl).map Event.id := by
        intro pre cl post hsplit c hc n hn hnear
        rcases append_singleton_split hsplit with ⟨hp, hz, _⟩ | ⟨post2, hcls, _⟩
        · subst hp
          subst hz
          have := hr7 c (by simpa using hc) n hn hnear
          rw [hr2] at this
          rw [List.map_append, List.mem_append]
          rcases List.mem_append.mp this with h | h
          · exact Or.inr (List.mem_reverse.mp h)
          · exact Or.inl ((hvis n.id).mp h)
        · exact hord pre cl post2 hcls c hc n hn hnear
      obtain ⟨Γ2, h1, h2, h3, h4, h5, h6⟩ :=
        ih (findClusterLoop all [e] visited []).2 (clusters ++ [Δ])
          (fun t htm => ht t (List.mem_cons_of_mem _ htm)) hvis2 hnd2 hcl2 hord2
      have hassoc : (clusters ++ [Δ]) ++ Γ2 = clusters ++ Δ :: Γ2 := by simp
      rw [hassoc] at h1 h2 h3 h4 h5 h6
      refine ⟨Δ :: Γ2, h1, h2, h3, h4, h5, ?_⟩
      intro t htm
      rcases List.mem_cons.mp htm with rfl | hm
      · rw [List.flatten_append, List.flatten_cons, List.map_append, List.map_append]
        exact List.mem_append_right _ (List.mem_append_left _ heidΔ)
      · exact h6 t hm

/-- Packaging of the cluster-detection pipeline: on a nonempty board the
returned aggregates' member lists are exactly the BFS clusters, which are
nonempty, linked, made of board members, mutually id-disjoint, closed under
the proximity relation towards earlier clusters, and jointly cover the
board. -/
theorem detectAggregates_spec (gen : ℕ → String) (now : ℕ) (b : Board)
    (hlen : ¬b.getAllEvents.length = 0) :
    ∃ Γ : List (List Event),
      (b.detectAggregates gen now).2.map Aggregate.events = Γ ∧
      (Γ.flatten.map Event.id).Nodup ∧
      (∀ cl ∈ Γ, cl ≠ [] ∧ linkedCluster cl ∧ ∀ c ∈ cl, c ∈ b.getAllEvents) ∧
      (∀ pre cl post, Γ = pre ++ cl :: post →
        ∀ c ∈ cl, ∀ n ∈ b.getAllEvents, nearEvents c n →
          n.id ∈ (pre.flatten ++ cl).map Event.id) ∧
      (∀ t ∈ b.getAllEvents, t.id ∈ Γ.flatten.map Event.id) := by
  obtain ⟨Γ, h1, h2, h3, h4, h5, h6⟩ :=
    detectLoop_spec b.getAllEvents b.getAllEvents [] [] (fun t ht => ht)
      (by simp) (by simp) (by simp)
      (fun pre cl post h => absurd h (by simp))
  rw [List.nil_append] at h1 h3 h4 h5 h6
  refine ⟨Γ, ?_, h3, h4, h5, h6⟩
  simp only [Board.detectAggregates]
  rw [if_neg hlen]
  rw [h1, List.mapIdx_eq_enum_map, List.map_map]
  have hcomp : (Aggregate.events ∘ Function.uncurry fun index cluster =>
      ({ id := gen index, name := "Aggregate " ++ toString (index + 1), events := cluster,
         createdAt := now, lastModified := now } : Aggregate)) = Prod.snd := by
    funext p
    rfl
  rw [hcomp, List.enum_map_snd]

/-- C5 (amended): after `detectAggregates` runs on a board with distinct
card ids, (i) every two cards whose positions are within the clustering
radius (300) of each other lie in a common aggregate of the result, (ii)
every card whose position is farther than the radius from every other
card's position forms a singleton aggregate, and (iii) every card belongs
to exactly one aggregate of the result. -/
theorem detectAggregates_clustering (gen : ℕ → String) (now : ℕ) (b : Board)
    (hnd : (b.events.map Event.id).Nodup) :
    (∀ u ∈ b.events, ∀ v ∈ b.events, nearEvents u v →
      ∃ a ∈ (b.detectAggregates gen now).2, u ∈ a.events ∧ v ∈ a.events) ∧
    (∀ v ∈ b.events, (∀ u ∈ b.events, u ≠ v → ¬nearEvents u v) →
      ∃ a ∈ (b.detectAggregates gen now).2, a.events = [v]) ∧
    (∀ e ∈ b.events,
      (((b.detectAggregates gen now).2.map Aggregate.events).flatten).count e = 1) := by
  by_cases hlen : b.getAllEvents.length = 0
  · have hev : b.events = [] := List.length_eq_zero.mp hlen
    refine ⟨?_, ?_, ?_⟩
    · intro u hu
      rw [hev] at hu
      simp at hu
    · intro v hv
      rw [hev] at hv
      simp at hv
    · intro e he
      rw [hev] at he
      simp at he
  obtain ⟨Γ, hbridge, h3, h4, h5, h6⟩ := detectAggregates_spec gen now b hlen
  have hmem_of_id : ∀ sub : List Event, (∀ c ∈ sub, c ∈ b.getAllEvents) →
      ∀ e ∈ b.getAllEvents, e.id ∈ sub.map Event.id → e ∈ sub := by
    intro sub hsub e he hid
    obtain ⟨c, hc, hcid⟩ := List.mem_map.mp hid
    have : c = e := List.inj_on_of_nodup_map hnd (hsub c hc) he hcid
    exact this ▸ hc
  have hflatten_sub : ∀ c ∈ Γ.flatten, c ∈ b.getAllEvents := by
    intro c hc
    obtain ⟨cl, hcl, hcm⟩ := List.mem_flatten.mp hc
    exact (h4 cl hcl).2.2 c hcm
  have hmem_flatten : ∀ e ∈ b.events, e ∈ Γ.flatten := by
    intro e he
    exact hmem_of_id Γ.flatten hflatten_sub e he (h6 e he)
  refine ⟨?_, ?_, ?_⟩
  · -- (i) near cards share an aggregate
    intro u hu v hv hnear
    obtain ⟨clU, hclU, huin⟩ := List.mem_flatten.mp (hmem_flatten u hu)
    obtain ⟨preU, postU, hsplitU⟩ := List.append_of_mem hclU
    have hvid := h5 preU clU postU hsplitU u huin v hv hnear
    rw [List.map_append, List.mem_append] at hvid
    rcases hvid with hvpre | hvcl
    · exfalso
      have hpre_sub : ∀ c ∈ preU.flatten, c ∈ b.getAllEvents := by
        intro c hc
        obtain ⟨cl, hcl, hcm⟩ := List.mem_flatten.mp hc
        exact (h4 cl (by rw [hsplitU]; exact List.mem_append_left _ hcl)).2.2 c hcm
      have hvfl : v ∈ preU.flatten := hmem_of_id preU.flatten hpre_sub v hv hvpre
      obtain ⟨clV, hclVpre, hvin⟩ := List.mem_flatten.mp hvfl
      obtain ⟨preV, postV, hsplitV⟩ := List.append_of_mem hclVpre
      have hsplit2 : Γ = preV ++ clV :: (postV ++ clU :: postU) := by
        rw [hsplitU, hsplitV]
        simp
      have huid2 := h5 preV clV _ hsplit2 v hvin u hu (nearEvents_symm hnear)
      have h3x := h3
      rw [hsplit2, List.flatten_append, List.flatten_cons, List.map_append,
        List.map_append] at h3x
      obtain ⟨hA, hBC, hdisj⟩ := List.nodup_append.mp h3x
      obtain ⟨hB, hC, hdisjBC⟩ := List.nodup_append.mp hBC
      have huidC : u.id ∈ (postV ++ clU :: postU).flatten.map Event.id := by
        rw [List.flatten_append, List.flatten_cons, List.map_append, List.map_append]
        exact List.mem_append_right _ (List.mem_append_left _ (List.mem_map_of_mem _ huin))
      rw [List.map_append, List.mem_append] at huid2
      rcases huid2 with h | h
      · exact hdisj h (List.mem_append_right _ huidC)
      · exact hdisjBC h huidC
    · have hvin : v ∈ clU := hmem_of_id clU (h4 clU hclU).2.2 v hv hvcl
      have : clU ∈ (b.detectAggregates gen now).2.map Aggregate.events := hbridge ▸ hclU
      obtain ⟨a, ha, hae⟩ := List.mem_map.mp this
      exact ⟨a, ha, hae ▸ ⟨huin, hvin⟩⟩
  · -- (ii) isolated cards form singletons
    intro v hv hiso
    obtain ⟨clV, hclV, hvin⟩ := List.mem_flatten.mp (hmem_flatten v hv)
    obtain ⟨hne, hlink, hsub⟩ := h4 clV hclV
    have hsingle : clV = [v] := by
      cases hcl : clV with
      | nil => exact absurd hcl hne
      | cons c0 ctail =>
        rw [hcl] at hvin hlink hsub
        have hv0 : v = c0 := by
          by_contra hvne
          have hvt : v ∈ ctail := by
            rcases List.mem_cons.mp hvin with h | h
            · exact absurd h hvne
            · exact h
          obtain ⟨t1, t2, hts⟩ := List.append_of_mem hvt
          have hsplit : c0 :: ctail = (c0 :: t1) ++ v :: t2 := by
            rw [hts]
            rfl
          rcases hlink (c0 :: t1) v t2 hsplit with hnil | ⟨y, hy, hyne, hynear⟩
          · exact absurd hnil (by simp)
          · refine hiso y (hsub y ?_) hyne hynear
            rw [hsplit]
            exact List.mem_append_left _ hy
        subst hv0
        cases hct : ctail with
        | nil => rfl
        | cons w t2 =>
          exfalso
          rw [hct] at hlink hsub
          rcases hlink [v] w t2 rfl with hnil | ⟨y, hy, hyne, hynear⟩
          · exact absurd hnil (by simp)
          · have hyv : y = v := List.mem_singleton.mp hy
            subst hyv
            have hwmem : w ∈ b.getAllEvents := hsub w (by simp)
            exact hiso w hwmem (Ne.symm hyne) (nearEvents_symm hynear)
    rw [hsingle] at hclV
    have : [v] ∈ (b.detectAggregates gen now).2.map Aggregate.events := hbridge ▸ hclV
    obtain ⟨a, ha, hae⟩ := List.mem_map.mp this
    exact ⟨a, ha, hae⟩
  · -- (iii) exactly one membership
    intro e he
    rw [hbridge]
    exact List.count_eq_one_of_mem (List.Nodup.of_map Event.id h3) (hmem_flatten e he)

/-- C5 witness: the amended clustering theorem applied to the concrete
two-card board `flowBoard1`, whose ids are distinct. -/
theorem detectAggregates_clustering_witness :
    ((flowBoard1.events.map Event.id).Nodup) ∧
    ((∀ u ∈ flowBoard1.events, ∀ v ∈ flowBoard1.events, nearEvents u v →
      ∃ a ∈ (flowBoard1.detectAggregates natGen 7).2, u ∈ a.events ∧ v ∈ a.events) ∧
    (∀ v ∈ flowBoard1.events, (∀ u ∈ flowBoard1.events, u ≠ v → ¬nearEvents u v) →
      ∃ a ∈ (flowBoard1.detectAggregates natGen 7).2, a.events = [v]) ∧
    (∀ e ∈ flowBoard1.events,
      (((flowBoard1.detectAggregates natGen 7).2.map Aggregate.events).flatten).count e
        = 1)) :=
  ⟨by decide, detectAggregates_clustering natGen 7 flowBoard1 (by decide)⟩

/-- C5 (counterexample): the claim measures the clustering radius between
card centers, but the code measures it between the cards' positions (their
top-left anchor points).  On `cexBoard` the two cards' centers are exactly
300 apart, yet `detectAggregates` puts the cards into different
aggregates. -/
theorem clustering_not_center_to_center :
    ∃ u v, u ∈ cexBoard.events ∧ v ∈ cexBoard.events ∧ nearCenters u v ∧
      ¬∃ a ∈ (cexBoard.detectAggregates natGen 0).2, u ∈ a.events ∧ v ∈ a.events := by
  have s1 : findClusterLoop [cexWide, cexNarrow] [cexWide] [] [] = ([cexWide], ["cw"]) := by
    rw [findClusterLoop.eq_2, dif_neg (by decide)]
    show findClusterLoop [cexWide, cexNarrow] [] ["cw"] [cexWide] = _
    rw [findClusterLoop.eq_1]
  have s2 : findClusterLoop [cexWide, cexNarrow] [cexNarrow] ["cw"] []
      = ([cexNarrow], ["cn", "cw"]) := by
    rw [findClusterLoop.eq_2, dif_neg (by decide)]
    show findClusterLoop [cexWide, cexNarrow] [] ["cn", "cw"] [cexNarrow] = _
    rw [findClusterLoop.eq_1]
  have d0 : detectLoop [cexWide, cexNarrow] [cexWide, cexNarrow] [] []
      = ([[cexWide], [cexNarrow]], ["cn", "cw"]) := by
    rw [detectLoop.eq_2, if_neg (by decide)]
    dsimp only
    rw [s1]
    show detectLoop [cexWide, cexNarrow] [cexNarrow] ["cw"] [[cexWide]] = _
    rw [detectLoop.eq_2, if_neg (by decide)]
    dsimp only
    rw [s2]
    show detectLoop [cexWide, cexNarrow] [] ["cn", "cw"] [[cexWide], [cexNarrow]] = _
    rw [detectLoop.eq_1]
  have hagg : (cexBoard.detectAggregates natGen 0).2
      = [⟨natGen 0, "Aggregate 1", [cexWide], 0, 0⟩,
         ⟨natGen 1, "Aggregate 2", [cexNarrow], 0, 0⟩] := by
    simp only [Board.detectAggregates, Board.getAllEvents, cexBoard]
    rw [if_neg (by decide)]
    rw [d0]
    rfl
  refine ⟨cexWide, cexNarrow, by decide, by decide, ?_, ?_⟩
  · unfold nearCenters
    decide
  · rw [hagg]
    decide

/-- C4 (counterexample): `detectAggregates` builds aggregates with no
distance validation at all: on the five-card chain board the single
detected aggregate has centroid (600, 0) and contains the end cards, which
are 600 away from it — beyond `MAX_EVENT_DISTANCE = 500`. -/
theorem detectAggregates_violates_max_distance :
    ∃ a ∈ (chainBoard.detectAggregates natGen 0).2, ∃ e ∈ a.events, ∃ c,
      a.getCenter = some c ∧
      e.position.distLe c (Q.ofInt maxEventDistance) = false := by
  have s1 : findClusterLoop chainBoard.events [chainEv 0 0] [] []
      = ([chainEv 0 0, chainEv 1 300, chainEv 2 600, chainEv 3 900, chainEv 4 1200],
         ["c4", "c3", "c2", "c1", "c0"]) := by
    rw [findClusterLoop.eq_2, dif_neg (by decide)]
    show findClusterLoop chainBoard.events [chainEv 1 300] ["c0"] [chainEv 0 0] = _
    rw [findClusterLoop.eq_2, dif_neg (by decide)]
    show findClusterLoop chainBoard.events [chainEv 2 600] ["c1", "c0"]
      [chainEv 0 0, chainEv 1 300] = _
    rw [findClusterLoop.eq_2, dif_neg (by decide)]
    show findClusterLoop chainBoard.events [chainEv 3 900] ["c2", "c1", "c0"]
      [chainEv 0 0, chainEv 1 300, chainEv 2 600] = _
    rw [findClusterLoop.eq_2, dif_neg (by decide)]
    show findClusterLoop chainBoard.events [chainEv 4 1200] ["c3", "c2", "c1", "c0"]
      [chainEv 0 0, chainEv 1 300, chainEv 2 600, chainEv 3 900] = _
    rw [findClusterLoop.eq_2, dif_neg (by decide)]
    show findClusterLoop chainBoard.events [] ["c4", "c3", "c2", "c1", "c0"]
      [chainEv 0 0, chainEv 1 300, chainEv 2 600, chainEv 3 900, chainEv 4 1200] = _
    rw [findClusterLoop.eq_1]
  have d0 : detectLoop chainBoard.events chainBoard.events [] []
      = ([[chainEv 0 0, chainEv 1 300, chainEv 2 600, chainEv 3 900, chainEv 4 1200]],
         ["c4", "c3", "c2", "c1", "c0"]) := by
    show detectLoop chainBoard.events
      [chainEv 0 0, chainEv 1 300, chainEv 2 600, chainEv 3 900, chainEv 4 1200] [] [] = _
    rw [detectLoop.eq_2, if_neg (by decide)]
    dsimp only
    rw [s1]
    show detectLoop chainBoard.events [chainEv 1 300, chainEv 2 600, chainEv 3 900, chainEv 4 1200]
      ["c4", "c3", "c2", "c1", "c0"]
      [[chainEv 0 0, chainEv 1 300, chainEv 2 600, chainEv 3 900, chainEv 4 1200]] = _
    rw [detectLoop.eq_2, if_pos (by decide)]
    rw [detectLoop.eq_2, if_pos (by decide)]
    rw [detectLoop.eq_2, if_pos (by decide)]
    rw [detectLoop.eq_2, if_pos (by decide)]
    rw [detectLoop.eq_1]
  have hagg : (chainBoard.detectAggregates natGen 0).2
      = [⟨natGen 0, "Aggregate 1",
          [chainEv 0 0, chainEv 1 300, chainEv 2 600, chainEv 3 900, chainEv 4 1200], 0, 0⟩] := by
    simp only [Board.detectAggregates, Board.getAllEvents]
    rw [if_neg (by decide)]
    rw [d0]
    rfl
  rw [hagg]
  refine ⟨_, List.mem_singleton_self _, chainEv 0 0, by decide,
    ⟨Q.ofInt 600, Q.ofInt 0⟩, by decide, by decide⟩

/-- C4 (amended, the `Aggregate.addEvent` path): a successful insertion into
a nonempty aggregate appends the member and its position is within
`MAX_EVENT_DISTANCE` of the centroid at insertion time; an insertion beyond
that limit of a non-duplicate is rejected with an error, leaving the member
list unchanged. -/
theorem aggregate_addEvent_distance (a : Aggregate) (event : Event) (now : ℕ)
    (hne : a.events ≠ []) :
    ((a.addEvent event now).2 = none →
      (a.addEvent event now).1.events = a.events ++ [event] ∧
      ∃ c, a.getCenter = some c ∧
        event.position.distLe c (Q.ofInt maxEventDistance) = true) ∧
    (∀ c, a.getCenter = some c →
      event.position.distLe c (Q.ofInt maxEventDistance) = false →
      a.containsEvent event.id = false →
      (a.addEvent event now).1 = a ∧ (a.addEvent event now).2 ≠ none) := by
  have hlen : ¬a.events.length = 0 := fun h => hne (List.length_eq_zero.mp h)
  constructor
  · intro hok
    unfold Aggregate.addEvent at hok ⊢
    by_cases hdup : a.containsEvent event.id = true
    · rw [if_pos hdup] at hok
      exact absurd hok (by simp)
    · rw [if_neg hdup] at hok ⊢
      by_cases hcan : a.canAddEvent event = true
      · rw [if_neg (by simp [hcan])] at hok ⊢
        refine ⟨rfl, ?_⟩
        unfold Aggregate.canAddEvent at hcan
        rw [if_neg hlen] at hcan
        unfold Aggregate.getCenter at hcan ⊢
        rw [if_neg hlen] at hcan ⊢
        exact ⟨_, rfl, hcan⟩
      · rw [if_pos (by simp [Bool.eq_false_iff.mpr hcan])] at hok
        exact absurd hok (by simp)
  · intro c hc hfar hdup
    have hcan : a.canAddEvent event = false := by
      unfold Aggregate.canAddEvent
      rw [if_neg hlen, hc]
      exact hfar
    unfold Aggregate.addEvent
    rw [if_neg (by simp [hdup]), if_pos (by simp [hcan])]
    exact ⟨rfl, by simp⟩

/-- C4 witness: the amended insertion theorem applied to the one-member
aggregate `aggW` and the card `evtCard`. -/
theorem aggregate_addEvent_distance_witness :
    (aggW.events ≠ []) ∧
    (((aggW.addEvent evtCard 9).2 = none →
      (aggW.addEvent evtCard 9).1.events = aggW.events ++ [evtCard] ∧
      ∃ c, aggW.getCenter = some c ∧
        evtCard.position.distLe c (Q.ofInt maxEventDistance) = true) ∧
    (∀ c, aggW.getCenter = some c →
      evtCard.position.distLe c (Q.ofInt maxEventDistance) = false →
      aggW.containsEvent evtCard.id = false →
      (aggW.addEvent evtCard 9).1 = aggW ∧ (aggW.addEvent evtCard 9).2 ≠ none)) :=
  ⟨by decide, aggregate_addEvent_distance aggW evtCard 9 (by decide)⟩

/-! ## C6: the flow validation rule -/

/-- The error list is empty exactly when every command in the sequence has an
immediately following domain event. -/
theorem flowErrors_eq_nil_iff (es : List Event) :
    flowErrors es = [] ↔
      ∀ (i : ℕ) (e : Event), es[i]? = some e → e.type.isCommand = true →
        ∃ e2, es[i+1]? = some e2 ∧ e2.type.isDomainEvent = true := by
  induction es with
  | nil => simp [flowErrors]
  | cons cur rest ih =>
    simp only [flowErrors]
    rw [List.append_eq_nil]
    constructor
    · rintro ⟨hhead, htail⟩ i e hget hcmd
      cases i with
      | zero =>
        simp only [List.getElem?_cons_zero, Option.some.injEq] at hget
        subst hget
        cases rest with
        | nil => simp [hcmd] at hhead
        | cons next rest2 =>
          cases hde : next.type.isDomainEvent
          · simp [hcmd, hde] at hhead
          · exact ⟨next, by simp, hde⟩
      | succ j =>
        have := ih.mp htail j e (by simpa using hget) hcmd
        simpa using this
    · intro h
      constructor
      · cases hcmd : cur.type.isCommand
        · simp [hcmd]
        · obtain ⟨e2, hget2, hde⟩ := h 0 cur (by simp) hcmd
          cases rest with
          | nil => simp at hget2
          | cons next rest2 =>
            simp only [List.getElem?_cons_succ, List.getElem?_cons_zero,
              Option.some.injEq] at hget2
            subst hget2
            simp [hde]
      · refine ih.mpr fun i e hget hcmd => ?_
        obtain ⟨e2, hget2, hde⟩ := h (i+1) e (by simpa using hget) hcmd
        exact ⟨e2, by simpa using hget2, hde⟩

/-- C6: `validateFlow` scans the x-sorted card sequence; `isValid` is true
exactly when the error list is empty, which happens exactly when every
command card is immediately followed by a domain-event card; the concrete
examples: command at x=100 followed by a domain event at x=200 validates
with no errors; a lone command yields exactly one error naming it; a command
followed by a policy yields the error naming the command and the found
type. -/
theorem validateFlow_spec :
    (∀ b : Board, (b.validateFlow).isValid = true ↔ (b.validateFlow).errors = [])
    ∧ (∀ b : Board, (b.validateFlow).errors = flowErrors b.getEventsSortedByPosition)
    ∧ (∀ b : Board, (b.validateFlow).isValid = true ↔
        ∀ (i : ℕ) (e : Event), (b.getEventsSortedByPosition)[i]? = some e →
          e.type.isCommand = true →
          ∃ e2, (b.getEventsSortedByPosition)[i+1]? = some e2 ∧
            e2.type.isDomainEvent = true)
    ∧ flowBoard1.validateFlow = ⟨true, []⟩
    ∧ flowBoard2.validateFlow =
        ⟨false, ["Command \"Register User\" must be followed by an event"]⟩
    ∧ flowBoard3.validateFlow =
        ⟨false,
          ["Command \"Register User\" must be followed by a domain event, but found policy"]⟩ := by
  have hval : ∀ b : Board, (b.validateFlow).isValid = true ↔ (b.validateFlow).errors = [] := by
    intro b
    simp only [Board.validateFlow]
    simp [List.length_eq_zero]
  refine ⟨hval, fun b => rfl, ?_, by decide, by decide, by decide⟩
  intro b
  rw [hval b]
  exact flowErrors_eq_nil_iff _

/-- Witness for C6: the first concrete example, read off the theorem. -/
theorem validateFlow_spec_witness :
    flowBoard1.validateFlow = ⟨true, []⟩ :=
  validateFlow_spec.2.2.2.1

/-! ## C10: `EventId` case normalization -/

theorem char_toNat_ofNat_lt {n : ℕ} (h : n < 0xd800) : (Char.ofNat n).toNat = n := by
  unfold Char.ofNat
  rw [dif_pos (Or.inl h)]
  rfl

theorem char_eq_iff_toNat {c d : Char} : c = d ↔ c.toNat = d.toNat := by
  constructor
  · exact fun h => h ▸ rfl
  · intro h
    apply Char.ext
    exact UInt32.toNat.inj h

/-- Pointwise-equal predicates give equal `List.all` results. -/
theorem list_all_ext {α : Type} (l : List α) (f g : α → Bool)
    (h : ∀ x ∈ l, f x = g x) : l.all f = l.all g := by
  induction l with
  | nil => rfl
  | cons x xs ih =>
    simp only [List.all_cons, h x (List.mem_cons_self x xs),
      ih fun y hy => h y (List.mem_cons_of_mem x hy)]

/-- Lowercasing a letter moves its code point by 32 and leaves every other
character unchanged. -/
theorem toLowerChar_toNat (c : Char) :
    (65 ≤ c.toNat ∧ c.toNat ≤ 90 ∧ (toLowerChar c).toNat = c.toNat + 32)
    ∨ (¬(65 ≤ c.toNat ∧ c.toNat ≤ 90) ∧ toLowerChar c = c) := by
  by_cases h : 65 ≤ c.toNat ∧ c.toNat ≤ 90
  · refine Or.inl ⟨h.1, h.2, ?_⟩
    unfold toLowerChar
    rw [if_pos (by simp [h.1, h.2])]
    exact char_toNat_ofNat_lt (by omega)
  · refine Or.inr ⟨h, ?_⟩
    unfold toLowerChar
    rw [if_neg (by simpa [Bool.and_eq_true, Decidable.not_and_iff_or_not] using h)]

/-- The positional character classes of the (case-insensitive) UUID pattern
are invariant under lowercasing. -/
theorem uuidCharOk_toLowerChar (i : ℕ) (c : Char) :
    uuidCharOk i (toLowerChar c) = uuidCharOk i c := by
  rcases toLowerChar_toNat c with ⟨h1, h2, hlow⟩ | ⟨_, heq⟩
  · unfold uuidCharOk isHexDigitCI
    have e1 : ('-').toNat = 45 := by decide
    have e2 : ('4').toNat = 52 := by decide
    have e3 : ('8').toNat = 56 := by decide
    have e4 : ('9').toNat = 57 := by decide
    have e5 : ('a').toNat = 97 := by decide
    have e6 : ('b').toNat = 98 := by decide
    have e7 : ('A').toNat = 65 := by decide
    have e8 : ('B').toNat = 66 := by decide
    split
    · rw [Bool.eq_iff_iff]
      simp only [decide_eq_true_eq, char_eq_iff_toNat, hlow, e1]
      omega
    · split
      · rw [Bool.eq_iff_iff]
        simp only [decide_eq_true_eq, char_eq_iff_toNat, hlow, e2]
        omega
      · split
        · rw [Bool.eq_iff_iff]
          simp only [Bool.or_eq_true, decide_eq_true_eq, char_eq_iff_toNat, hlow,
            e3, e4, e5, e6, e7, e8]
          omega
        · rw [Bool.eq_iff_iff]
          simp only [Bool.or_eq_true, Bool.and_eq_true, decide_eq_true_eq, hlow]
          omega
  · rw [heq]

/-- The UUID test is invariant under lowercasing. -/
theorem isValidUUID_toLowerStr (s : String) :
    isValidUUID (toLowerStr s) = isValidUUID s := by
  unfold isValidUUID toLowerStr
  show (decide ((s.data.map toLowerChar).length = 36)
      && (s.data.map toLowerChar).enum.all fun p => uuidCharOk p.1 p.2) = _
  rw [List.length_map, List.enum_map, List.all_map]
  rw [list_all_ext _ _ _ fun p _ => ?_]
  rcases p with ⟨i, c⟩
  exact uuidCharOk_toLowerChar i c

/-- C10: the `EventId` constructor lowercases first and stores the
normalized string: every string matching the UUID v4 pattern (whose
character classes are case-insensitive) is accepted and stored lowercased,
so ids differing only in letter case construct equal `EventId`s; every
non-matching string is rejected with the validation error. -/
theorem eventId_case_normalization :
    (∀ s : String, isValidUUID s = true → mkEventId s = .ok (toLowerStr s))
    ∧ (∀ s1 s2 : String, toLowerStr s1 = toLowerStr s2 → mkEventId s1 = mkEventId s2)
    ∧ (∀ s : String, isValidUUID s = false →
        mkEventId s = .error "Invalid UUID format for EventId") := by
  refine ⟨?_, ?_, ?_⟩
  · intro s hs
    unfold mkEventId
    rw [if_pos ((isValidUUID_toLowerStr s).trans hs)]
  · intro s1 s2 h
    unfold mkEventId
    rw [h]
  · intro s hs
    unfold mkEventId
    rw [if_neg (by rw [isValidUUID_toLowerStr s, hs]; exact Bool.false_ne_true)]

/-! ## C7: router totality and shortest-route selection -/

theorem Q.le_refl (a : Q) : Q.le a a = true := by
  simp [Q.le]

theorem Q.le_of_lt {a b : Q} (h : Q.lt a b = true) : Q.le a b = true := by
  simp only [Q.lt, decide_eq_true_eq] at h
  simp only [Q.le, decide_eq_true_eq]
  omega

theorem Q.le_of_not_lt {a b : Q} (h : Q.lt a b = false) : Q.le b a = true := by
  simp only [Q.lt, decide_eq_false_iff_not] at h
  simp only [Q.le, decide_eq_true_eq]
  omega

/-- Cross-multiplication transitivity, valid when denominators are
positive. -/
theorem Q.le_trans_posDen {a b c : Q} (ha : 0 < a.den) (hb : 0 < b.den) (hc : 0 < c.den)
    (h1 : Q.le a b = true) (h2 : Q.le b c = true) : Q.le a c = true := by
  simp only [Q.le, decide_eq_true_eq] at *
  have h3 : a.num * c.den * b.den ≤ c.num * a.den * b.den := by nlinarith
  exact le_of_mul_le_mul_right h3 hb

/-- The route length of a polyline of genuine points is a genuine number. -/
theorem routeLength_posDen (route : List Point) (h : ∀ p ∈ route, pointPosDen p) :
    0 < (routeLength route).den := by
  match route with
  | [] => simp [routeLength, Q.ofInt]
  | [a] => simp [routeLength, Q.ofInt]
  | a :: b :: rest =>
    have ha := h a (by simp)
    have hb := h b (by simp)
    have ih := routeLength_posDen (b :: rest) fun p hp => h p (List.mem_cons_of_mem a hp)
    show 0 < (Q.add _ (routeLength (b :: rest))).den
    simp only [Q.add, Q.abs, Q.sub]
    obtain ⟨hax, hay⟩ := ha
    obtain ⟨hbx, hby⟩ := hb
    positivity

/-- `selectShortestRoute` on a nonempty list of genuine routes returns a
member of minimum Manhattan length. -/
theorem selectShortestRoute_spec (routes : List (List Point)) (hne : routes ≠ [])
    (hd : ∀ r ∈ routes, 0 < (routeLength r).den) :
    ∃ r, selectShortestRoute routes = some r ∧ r ∈ routes ∧
      ∀ r2 ∈ routes, Q.le (routeLength r) (routeLength r2) = true := by
  have hfold : ∀ (l : List (List Point)) (init : List Point),
      0 < (routeLength init).den → (∀ r ∈ l, 0 < (routeLength r).den) →
      ((l.foldl (fun best route =>
          if Q.lt (routeLength route) (routeLength best) then route else best) init = init ∨
        l.foldl (fun best route =>
          if Q.lt (routeLength route) (routeLength best) then route else best) init ∈ l) ∧
        Q.le (routeLength (l.foldl (fun best route =>
          if Q.lt (routeLength route) (routeLength best) then route else best) init))
          (routeLength init) = true ∧
        ∀ r ∈ l, Q.le (routeLength (l.foldl (fun best route =>
          if Q.lt (routeLength route) (routeLength best) then route else best) init))
          (routeLength r) = true) := by
    intro l
    induction l with
    | nil => exact fun init _ _ => ⟨Or.inl rfl, Q.le_refl _, by simp⟩
    | cons x xs ih =>
      intro init hinit hl
      have hx := hl x (by simp)
      have hxs : ∀ r ∈ xs, 0 < (routeLength r).den :=
        fun r hr => hl r (List.mem_cons_of_mem x hr)
      simp only [List.foldl_cons]
      cases hlt : Q.lt (routeLength x) (routeLength init)
      · rw [if_neg (by simp [hlt])]
        obtain ⟨hmem, hle, hall⟩ := ih init hinit hxs
        have hinitx : Q.le (routeLength init) (routeLength x) = true := Q.le_of_not_lt hlt
        refine ⟨hmem.imp id (List.mem_cons_of_mem x), hle, ?_⟩
        intro r hr
        rcases List.mem_cons.mp hr with rfl | hr2
        · rcases hmem with heq | hmem2
          · rw [heq]
            exact hinitx
          · exact Q.le_trans_posDen (hxs _ hmem2) hinit (hl r hr) hle hinitx
        · exact hall r hr2
      · rw [if_pos (by simp [hlt])]
        obtain ⟨hmem, hle, hall⟩ := ih x hx hxs
        have hxinit : Q.le (routeLength x) (routeLength init) = true := Q.le_of_lt hlt
        have hresden : 0 < (routeLength ((xs.foldl (fun best route =>
            if Q.lt (routeLength route) (routeLength best) then route else best) x))).den := by
          rcases hmem with heq | hmem2
          · rw [heq]
            exact hx
          · exact hxs _ hmem2
        refine ⟨Or.inr ?_, ?_, ?_⟩
        · rcases hmem with heq | hmem2
          · rw [heq]
            exact List.mem_cons_self x xs
          · exact List.mem_cons_of_mem x hmem2
        · exact Q.le_trans_posDen hresden hx hinit hle hxinit
        · intro r hr
          rcases List.mem_cons.mp hr with rfl | hr2
          · exact hle
          · exact hall r hr2
  match routes, hne with
  | r0 :: rest, _ =>
    have hd0 := hd r0 (by simp)
    obtain ⟨hmem, hle, hall⟩ := hfold (r0 :: rest) r0 hd0 hd
    refine ⟨_, rfl, ?_, ?_⟩
    · rcases hmem with h | h
      · rw [h]; exact List.mem_cons_self _ _
      · exact h
    · exact hall

/-- Every point of every candidate polyline is genuine when the two card
rectangles and the margin are. -/
theorem routerCandidates_posDen (source target : CardRect) (margin : Q)
    (hs : rectPosDen source) (ht : rectPosDen target) (hm : 0 < margin.den) :
    ∀ r ∈ routerCandidates source target margin, ∀ p ∈ r, pointPosDen p := by
  obtain ⟨hsl, hsr, hst, hsb⟩ := hs
  obtain ⟨htl, htr, htt, htb⟩ := ht
  have hexit : ∀ (a b : CardRect), rectPosDen a → rectPosDen b →
      pointPosDen (getExitPoint a b) := by
    intro a b ⟨hal, har, hat, hab⟩ ⟨hbl, hbr, hbt, hbb⟩
    unfold getExitPoint pointPosDen
    dsimp only
    split
    · refine ⟨?_, ?_⟩
      · split <;> assumption
      · simp only [Q.div, Q.add, Q.ofInt]
        rw [if_neg (by decide)]
        simp only []
        positivity
    · refine ⟨?_, ?_⟩
      · simp only [Q.div, Q.add, Q.ofInt]
        rw [if_neg (by decide)]
        simp only []
        positivity
      · split <;> assumption
  have h1 := hexit source target ⟨hsl, hsr, hst, hsb⟩ ⟨htl, htr, htt, htb⟩
  have h2 := hexit target source ⟨htl, htr, htt, htb⟩ ⟨hsl, hsr, hst, hsb⟩
  obtain ⟨h1x, h1y⟩ := h1
  obtain ⟨h2x, h2y⟩ := h2
  have hminY : 0 < (Q.sub (Q.min source.top target.top) margin).den := by
    rcases Q.min_cases source.top target.top with h | h <;> rw [h] <;>
      simp only [Q.sub] <;> positivity
  have hmaxY : 0 < (Q.add (Q.max source.bottom target.bottom) margin).den := by
    rcases Q.max_cases source.bottom target.bottom with h | h <;> rw [h] <;>
      simp only [Q.add] <;> positivity
  have hminX : 0 < (Q.sub (Q.min source.left target.left) margin).den := by
    rcases Q.min_cases source.left target.left with h | h <;> rw [h] <;>
      simp only [Q.sub] <;> positivity
  have hmaxX : 0 < (Q.add (Q.max source.right target.right) margin).den := by
    rcases Q.max_cases source.right target.right with h | h <;> rw [h] <;>
      simp only [Q.add] <;> positivity
  intro r hr
  simp only [routerCandidates, createCandidates, List.mem_cons, List.not_mem_nil,
    or_false] at hr
  rcases hr with rfl | rfl | rfl | rfl | rfl | rfl <;>
    intro p hp <;>
    simp only [List.mem_cons, List.not_mem_nil, or_false] at hp <;>
    rcases hp with rfl | rfl | rfl | rfl <;>
    exact ⟨by assumption, by assumption⟩

/-- The candidate list is never empty. -/
theorem routerCandidates_ne_nil (source target : CardRect) (margin : Q) :
    routerCandidates source target margin ≠ [] := by
  simp [routerCandidates, createCandidates]

/-- C7: the router is total — for every source, target, obstacle list and
margin it returns a path — and the returned path is the simplification of a
minimum-Manhattan-length candidate among the valid (fully orthogonal,
obstacle-avoiding) candidates when at least one is valid, and among all six
candidates otherwise. -/
theorem buildCardConnectionRoute_spec (source target : CardRect)
    (obstacles : List CardRect) (margin : Q)
    (hs : rectPosDen source) (ht : rectPosDen target) (hm : 0 < margin.den) :
    (∃ pts, buildCardConnectionRoute source target obstacles margin = some pts)
    ∧ (routerValidCandidates source target obstacles margin ≠ [] →
        ∃ r, r ∈ routerValidCandidates source target obstacles margin ∧
          (∀ r2 ∈ routerValidCandidates source target obstacles margin,
            Q.le (routeLength r) (routeLength r2) = true) ∧
          buildCardConnectionRoute source target obstacles margin =
            some (simplifyRoute r))
    ∧ (routerValidCandidates source target obstacles margin = [] →
        ∃ r, r ∈ routerCandidates source target margin ∧
          (∀ r2 ∈ routerCandidates source target margin,
            Q.le (routeLength r) (routeLength r2) = true) ∧
          buildCardConnectionRoute source target obstacles margin =
            some (simplifyRoute r)) := by
  have hcand := routerCandidates_posDen source target margin hs ht hm
  have hcd : ∀ r ∈ routerCandidates source target margin, 0 < (routeLength r).den :=
    fun r hr => routeLength_posDen r (hcand r hr)
  have hvd : ∀ r ∈ routerValidCandidates source target obstacles margin,
      0 < (routeLength r).den :=
    fun r hr => hcd r (List.mem_of_mem_filter hr)
  have hmain : (routerValidCandidates source target obstacles margin ≠ [] →
        ∃ r, r ∈ routerValidCandidates source target obstacles margin ∧
          (∀ r2 ∈ routerValidCandidates source target obstacles margin,
            Q.le (routeLength r) (routeLength r2) = true) ∧
          buildCardConnectionRoute source target obstacles margin =
            some (simplifyRoute r))
      ∧ (routerValidCandidates source target obstacles margin = [] →
        ∃ r, r ∈ routerCandidates source target margin ∧
          (∀ r2 ∈ routerCandidates source target margin,
            Q.le (routeLength r) (routeLength r2) = true) ∧
          buildCardConnectionRoute source target obstacles margin =
            some (simplifyRoute r)) := by
    constructor
    · intro hne
      obtain ⟨r, hsel, hmem, hmin⟩ :=
        selectShortestRoute_spec (routerValidCandidates source target obstacles margin) hne hvd
      refine ⟨r, hmem, hmin, ?_⟩
      unfold buildCardConnectionRoute
      dsimp only
      rw [if_pos (by simpa [List.length_pos] using hne), hsel]
    · intro hnil
      obtain ⟨r, hsel, hmem, hmin⟩ :=
        selectShortestRoute_spec (routerCandidates source target margin)
          (routerCandidates_ne_nil source target margin) hcd
      refine ⟨r, hmem, hmin, ?_⟩
      unfold buildCardConnectionRoute
      dsimp only
      rw [if_neg (by simp [hnil]), hsel]
  refine ⟨?_, hmain.1, hmain.2⟩
  by_cases hne : routerValidCandidates source target obstacles margin = []
  · obtain ⟨r, _, _, hr⟩ := hmain.2 hne
    exact ⟨_, hr⟩
  · obtain ⟨r, _, _, hr⟩ := hmain.1 hne
    exact ⟨_, hr⟩

/-- Witness for C7: the spec's routing example — source fully left of the
target, no obstacles — instantiating the theorem. -/
theorem buildCardConnectionRoute_spec_witness :
    rectPosDen ⟨Q.ofInt 0, Q.ofInt 100, Q.ofInt 0, Q.ofInt 80⟩
    ∧ rectPosDen ⟨Q.ofInt 300, Q.ofInt 400, Q.ofInt 0, Q.ofInt 80⟩
    ∧ (0 : ℤ) < defaultMargin.den
    ∧ (∃ pts, buildCardConnectionRoute ⟨Q.ofInt 0, Q.ofInt 100, Q.ofInt 0, Q.ofInt 80⟩
        ⟨Q.ofInt 300, Q.ofInt 400, Q.ofInt 0, Q.ofInt 80⟩ [] defaultMargin = some pts) :=
  ⟨⟨by decide, by decide, by decide, by decide⟩,
    ⟨by decide, by decide, by decide, by decide⟩, by decide,
    (buildCardConnectionRoute_spec ⟨Q.ofInt 0, Q.ofInt 100, Q.ofInt 0, Q.ofInt 80⟩
      ⟨Q.ofInt 300, Q.ofInt 400, Q.ofInt 0, Q.ofInt 80⟩ [] defaultMargin
      ⟨by decide, by decide, by decide, by decide⟩
      ⟨by decide, by decide, by decide, by decide⟩ (by decide)).1⟩

/-- Witness for C10 at a concrete mixed-case UUID and a concrete invalid
string. -/
theorem eventId_case_normalization_witness :
    isValidUUID "A0EEBC99-9C0B-4EF8-BB6D-6BB9BD380A11" = true
    ∧ mkEventId "A0EEBC99-9C0B-4EF8-BB6D-6BB9BD380A11" =
        .ok (toLowerStr "A0EEBC99-9C0B-4EF8-BB6D-6BB9BD380A11")
    ∧ isValidUUID "not-a-uuid" = false
    ∧ mkEventId "not-a-uuid" = .error "Invalid UUID format for EventId" :=
  ⟨by decide,
    eventId_case_normalization.1 "A0EEBC99-9C0B-4EF8-BB6D-6BB9BD380A11" (by decide),
    by decide,
    eventId_case_normalization.2.2 "not-a-uuid" (by decide)⟩

/-! ## C8: the serialization round trip -/

/-- Binding a successful `Except` computation applies the continuation. -/
theorem except_bind_ok {α β : Type} (a : α) (f : α → Except String β) :
    (Except.ok a >>= f : Except String β) = f a := rfl

/-- `Position.equals` is reflexive. -/
theorem posEq_self (p : Pos) : p.posEq p = true := by
  simp [Pos.posEq, Q.valEq]

/-- On a board whose cards are all separated from a candidate card, adding
the candidate succeeds and appends it, provided its id is fresh. -/
theorem addEvent_ok_of_sep (B : Board) (e : Event)
    (hdup : B.events.any (fun ev => ev.id == e.id) = false)
    (hov : B.hasOverlappingEvent e.position none e.name = false) :
    B.addEvent e = ({ B with events := B.events ++ [e] }, none) := by
  unfold Board.addEvent
  rw [if_neg (by simp [hdup]), if_neg (by simp [hov])]

/-- `findAvailablePosition` returns the requested position unchanged when no
current card overlaps the candidate there. -/
theorem findAvailablePosition_free (B : Board) (p : Pos) (name : String)
    (hov : B.hasOverlappingEvent p none name = false) :
    findAvailablePosition B p name = p := by
  unfold findAvailablePosition
  rw [hov]
  rfl

/-- The event-restoring loop of `deserialize` on serialized events that
re-validate to themselves, have fresh ids, and are pairwise separated:
every event is re-added at its original position, in order. -/
theorem restoreEvents_ok (now : ℕ) (rest : List Event) :
    ∀ B : Board, (∀ e ∈ rest, deserializeEvent (serializeEvent e) = .ok e) →
    ((B.events ++ rest).map Event.id).Nodup →
    (B.events ++ rest).Pairwise eventsSeparated →
    restoreEvents now B (rest.map serializeEvent)
      = .ok { B with events := B.events ++ rest } := by
  induction rest with
  | nil =>
    intro B _ _ _
    simp [restoreEvents]
  | cons e rest ih =>
    intro B hde hnd hsep
    have hde1 : deserializeEvent (serializeEvent e) = .ok e := hde e (List.mem_cons_self _ _)
    have hsepB : ∀ ev ∈ B.events, eventsSeparated ev e := by
      intro ev hev
      exact (List.pairwise_append.mp hsep).2.2 ev hev e (List.mem_cons_self _ _)
    have hov : B.hasOverlappingEvent e.position none e.name = false := by
      rw [hasOverlappingEvent_none_iff]
      intro ev hev
      have := eventsSeparated_symm (hsepB ev hev)
      unfold eventsSeparated rectOfEvent at this
      exact this
    have hdup : B.events.any (fun ev => ev.id == e.id) = false := by
      rw [List.any_eq_false]
      intro ev hev
      simp only [beq_iff_eq]
      intro heq
      have hdisj := (List.nodup_append.mp (by
        rw [List.map_append] at hnd
        exact hnd)).2.2
      exact hdisj (List.mem_map_of_mem Event.id hev)
        (by rw [List.map_cons]; exact heq ▸ List.mem_cons_self _ _)
    rw [List.map_cons, restoreEvents.eq_2, hde1, except_bind_ok]
    dsimp only
    rw [findAvailablePosition_free B e.position e.name hov, posEq_self]
    rw [if_neg (by decide)]
    rw [except_bind_ok]
    rw [addEvent_ok_of_sep B e hdup hov]
    dsimp only
    rw [ih { B with events := B.events ++ [e] }
      (fun x hx => hde x (List.mem_cons_of_mem _ hx))
      (by simpa using hnd) (by simpa using hsep)]
    simp

/-- The connection-restoring loop of `deserialize` re-adds every connection
whose endpoints exist on the board, in order. -/
theorem restoreConnections_ok (conns : List (String × String)) :
    ∀ B : Board,
    (∀ c ∈ conns, (∃ e ∈ B.events, e.id = c.1) ∧ ∃ e ∈ B.events, e.id = c.2) →
    restoreConnections B conns = { B with connections := B.connections ++ conns } := by
  induction conns with
  | nil =>
    intro B _
    simp [restoreConnections]
  | cons c rest ih =>
    intro B hc
    obtain ⟨st, tg⟩ := c
    obtain ⟨⟨e1, he1, hid1⟩, ⟨e2, he2, hid2⟩⟩ := hc (st, tg) (List.mem_cons_self _ _)
    have hsome1 : (B.getAllEvents.find? fun ev => ev.id == st).isSome := by
      rw [List.find?_isSome]
      exact ⟨e1, he1, by simp [hid1]⟩
    obtain ⟨src, hsrc⟩ := Option.isSome_iff_exists.mp hsome1
    have hsrcid : src.id = st := by simpa using List.find?_some hsrc
    have hsome2 : (B.getAllEvents.find? fun ev => ev.id == tg).isSome := by
      rw [List.find?_isSome]
      exact ⟨e2, he2, by simp [hid2]⟩
    obtain ⟨tgt, htgt⟩ := Option.isSome_iff_exists.mp hsome2
    have htgtid : tgt.id = tg := by simpa using List.find?_some htgt
    rw [restoreConnections.eq_2, hsrc, htgt]
    show restoreConnections (B.addConnection src.id tgt.id) rest = _
    rw [hsrcid, htgtid]
    rw [ih (B.addConnection st tg) (fun c2 hc2 => hc (c2) (List.mem_cons_of_mem _ hc2))]
    simp [Board.addConnection]

/-- C8: serializing a board whose data passes the deserializer's
re-validation (normalized UUID ids, valid names and types, nonnegative
positions), whose card ids are distinct and whose cards are pairwise
non-overlapping, and deserializing the result, reproduces the board's card
and connection data exactly; the stored aggregate list is reset to `[]`. -/
theorem serialize_roundtrip (now : ℕ) (b : Board)
    (hid : mkBoardId b.id = .ok b.id)
    (hde : ∀ e ∈ b.events, deserializeEvent (serializeEvent e) = .ok e)
    (hnd : (b.events.map Event.id).Nodup)
    (hsep : b.events.Pairwise eventsSeparated)
    (hconn : ∀ c ∈ b.connections,
      (∃ e ∈ b.events, e.id = c.1) ∧ ∃ e ∈ b.events, e.id = c.2) :
    deserialize now (serialize b)
      = .ok { id := b.id, events := b.events, aggregates := [],
              connections := b.connections } := by
  unfold deserialize serialize
  dsimp only
  rw [if_neg (by decide), if_neg (by decide)]
  simp only [Board.getAllEvents, Board.getAllConnections]
  rw [hid, except_bind_ok]
  rw [restoreEvents_ok now b.events (Board.create b.id) hde
    (by simpa [Board.create] using hnd) (by simpa [Board.create] using hsep)]
  rw [except_bind_ok]
  rw [restoreConnections_ok b.connections _ (by simpa [Board.create] using hconn)]
  simp [Board.create]
  rfl

/-- C8 witness: the round trip applied to the concrete board `serB`. -/
theorem serialize_roundtrip_witness :
    (mkBoardId serB.id = .ok serB.id) ∧
    (∀ e ∈ serB.events, deserializeEvent (serializeEvent e) = .ok e) ∧
    ((serB.events.map Event.id).Nodup) ∧
    (serB.events.Pairwise eventsSeparated) ∧
    (∀ c ∈ serB.connections,
      (∃ e ∈ serB.events, e.id = c.1) ∧ ∃ e ∈ serB.events, e.id = c.2) ∧
    deserialize 9 (serialize serB)
      = .ok { id := serB.id, events := serB.events, aggregates := [],
              connections := serB.connections } :=
  ⟨by decide, by decide, by decide, by decide, by decide,
    serialize_roundtrip 9 serB (by decide) (by decide) (by decide) (by decide) (by decide)⟩

end ES
